import Mathlib

/-!
Verification development for the solid-geometry kernel: primitive
tessellation (`src/core/primitives.cc`) and the n-ary boolean combination
engine (`src/geometry/cgal/cgalutils-applyops.cc`).

Machine doubles are modelled exactly: a finite double is a rational, and
the non-finite values (`inf`, `-inf`, `nan`) are explicit constructors so
that the source's `std::isfinite` tests and IEEE comparison semantics
(comparisons with `nan` are false) can be stated faithfully.  External
collaborators (the exact CGAL Nef algebra, `sin_degrees`/`cos_degrees`)
are abstracted as parameters, matching the spec's "opaque algebra"
contract.
-/

namespace OSCAD

/-- Model of a C++ `double`: an exact rational when finite, plus the three
non-finite values. -/
inductive Dbl where
  | fin (q : ℚ)
  | inf
  | ninf
  | nan
deriving DecidableEq, Repr

/-- Model of `std::isfinite`. -/
def Dbl.isFinite : Dbl → Bool
  | .fin _ => true
  | _ => false

/-- IEEE `<` on doubles: any comparison involving `nan` is false. -/
def Dbl.lt : Dbl → Dbl → Bool
  | .fin a, .fin b => decide (a < b)
  | .fin _, .inf => true
  | .ninf, .fin _ => true
  | .ninf, .inf => true
  | _, _ => false

/-- IEEE `<=` on doubles: any comparison involving `nan` is false. -/
def Dbl.le : Dbl → Dbl → Bool
  | .fin a, .fin b => decide (a ≤ b)
  | .fin _, .inf => true
  | .ninf, .fin _ => true
  | .ninf, .inf => true
  | .ninf, .ninf => true
  | .inf, .inf => true
  | _, _ => false

/-- The rational value of a finite double (junk value `0` otherwise; only
used after a finiteness guard has passed). -/
def Dbl.toQ : Dbl → ℚ
  | .fin q => q
  | _ => 0

/-! ## Boolean combinator (`cgalutils-applyops.cc`)

The exact solid representation (`CGAL_Nef_polyhedron`) is opaque: we model
it as a type `α` equipped with the capability interface the combinator
uses.  An algebra operation that may throw a CGAL exception returns
`Option`: `none` models a thrown exception. -/

/-- Capability interface of the opaque exact-solid algebra:
`isEmpty`, facet count, and the four throwing boolean operations
(`none` models a thrown `CGAL::Failure_exception`). -/
structure Algebra (α : Type) where
  isEmpty : α → Bool
  facets : α → ℕ
  unite : α → α → Option α
  intersect : α → α → Option α
  diff : α → α → Option α
  minkow : α → α → Option α

/-- The `OpenSCADOperator` values relevant to the combinator. -/
inductive Op where
  | union
  | difference
  | intersection
  | minkowski
deriving DecidableEq, Repr

/-- One child of a combination request, after the external
`getNefPolyhedronFromGeometry` conversion: an optional progress mark
(`item.first ? item.first->progress_mark : no node`) and the converted
exact solid, `none` when the child is null/unconvertible. -/
abbrev Child (α : Type) := Option ℤ × Option α

/-- The operator name string interpolated into the error log of
`applyOperator3D`'s catch blocks (note the source maps `MINKOWSKI` to
`"UNKNOWN"`). -/
def opName : Op → String
  | .intersection => "intersection"
  | .difference => "difference"
  | .union => "union"
  | .minkowski => "UNKNOWN"

/-- Dispatch of the `switch (op)` statement in `applyOperator3D`'s loop:
the mutating algebra call folding child `c` into accumulator `n`.  The
`default` branch (only reachable for `UNION`, which the source excludes
by assertion) logs an error and leaves the accumulator unchanged. -/
def opAlg {α : Type} (A : Algebra α) : Op → α → α → Option α
  | .intersection, n, c => A.intersect n c
  | .difference, n, c => A.diff n c
  | .minkowski, n, c => A.minkow n c
  | .union, n, _ => some n

/-- The child loop of `applyOperator3D` after the first child has
initialized the accumulator `N`.  Returns the final accumulator together
with the logged error message, if any: a thrown algebra exception is
caught outside the loop, which therefore returns the accumulator as it
stood when the throw happened. -/
def foldGo {α : Type} (A : Algebra α) (op : Op) (N : Option α) :
    List (Child α) → Option α × Option String
  | [] => (N, none)
  | (_, ch) :: cs =>
    match ch with
    | none =>
      if op = .intersection then foldGo A op none cs else foldGo A op N cs
    | some c =>
      if A.isEmpty c then
        if op = .intersection then foldGo A op none cs else foldGo A op N cs
      else
        match N with
        | none => foldGo A op none cs
        | some n =>
          if A.isEmpty n then foldGo A op N cs
          else
            match opAlg A op n c with
            | some n2 => foldGo A op (some n2) cs
            | none => (N, some (opName op))

/-- `CGALUtils::applyOperator3D`: initialize the accumulator from the
first child (null if that child is null), then fold the remaining
children.  Second component: the error message logged by the catch
blocks, if an algebra exception was thrown. -/
def applyOperator3D {α : Type} (A : Algebra α) (children : List (Child α)) (op : Op) :
    Option α × Option String :=
  match children with
  | [] => (none, none)
  | (_, ch) :: cs => foldGo A op ch cs

/-- Queue item of `applyUnion3D`: an exact solid paired with its progress
mark (`-1` for children without a node and for merged intermediates). -/
abbrev UItem (α : Type) := α × ℤ

/-- Pop the element the `std::priority_queue` yields first, under a
strict "comes strictly earlier" test `lt`; ties keep the earliest-pushed
element.  Returns the popped element and the remaining queue. -/
def popMinBy {α : Type} (lt : UItem α → UItem α → Bool) :
    List (UItem α) → Option (UItem α × List (UItem α))
  | [] => none
  | x :: xs =>
    match popMinBy lt xs with
    | none => some (x, [])
    | some (m, rest) => if lt m x then some (m, x :: rest) else some (x, xs)

theorem popMinBy_none_iff {α : Type} (lt : UItem α → UItem α → Bool)
    (q : List (UItem α)) : popMinBy lt q = none ↔ q = [] := by
  cases q with
  | nil => simp [popMinBy]
  | cons x xs =>
    simp only [popMinBy]
    cases hx : popMinBy lt xs with
    | none => simp
    | some pr =>
      obtain ⟨m, rest⟩ := pr
      by_cases hlt : lt m x = true <;> simp [hlt]

theorem popMinBy_length {α : Type} (lt : UItem α → UItem α → Bool) :
    ∀ (q : List (UItem α)) p rest, popMinBy lt q = some (p, rest) →
      rest.length + 1 = q.length := by
  intro q
  induction q with
  | nil => intro p rest h; simp [popMinBy] at h
  | cons x xs ih =>
    intro p rest h
    simp only [popMinBy] at h
    cases hx : popMinBy lt xs with
    | none =>
      rw [hx] at h
      have hxs : xs = [] := (popMinBy_none_iff lt xs).mp hx
      subst hxs
      simp at h
      simp [← h.2]
    | some pr =>
      rw [hx] at h
      obtain ⟨m, rest2⟩ := pr
      by_cases hlt : lt m x = true
      · simp [hlt] at h
        have := ih m rest2 hx
        simp [← h.2, ← this]
      · simp [hlt] at h
        simp [← h.2]

/-- The `while (q.size() > 1)` merge loop of `applyUnion3D`: pop the two
front elements, unite them, push the result back with synthetic mark
`-1`; a thrown union (`none`) propagates out to the catch. -/
def unionLoopBy {α : Type} (A : Algebra α) (lt : UItem α → UItem α → Bool)
    (q : List (UItem α)) : Option (List (UItem α)) :=
  match h : popMinBy lt q with
  | none => some q
  | some (p1, q1) =>
    match h2 : popMinBy lt q1 with
    | none => some q
    | some (p2, q2) =>
      match A.unite p1.1 p2.1 with
      | none => none
      | some u => unionLoopBy A lt ((u, (-1 : ℤ)) :: q2)
  termination_by q.length
  decreasing_by
    simp only [List.length_cons]
    have e1 := popMinBy_length lt q p1 q1 h
    have e2 := popMinBy_length lt q1 p2 q2 h2
    omega

/-- The queue-construction pass of `applyUnion3D`: each non-null,
non-empty converted child is pushed with its progress mark (`-1` when the
child has no node). -/
def unionInit {α : Type} (A : Algebra α) (children : List (Child α)) :
    List (UItem α) :=
  children.filterMap fun p =>
    match p.2 with
    | none => none
    | some c =>
      if A.isEmpty c then none
      else some (c, match p.1 with | some t => t | none => (-1 : ℤ))

/-- Generic `applyUnion3D` skeleton over a queue ordering.  Second
component: whether the catch block logged a CGAL error. -/
def applyUnionBy {α : Type} (A : Algebra α) (lt : UItem α → UItem α → Bool)
    (children : List (Child α)) : Option α × Bool :=
  match unionLoopBy A lt (unionInit A children) with
  | none => (none, true)
  | some [p] => (some p.1, false)
  | some _ => (none, false)

/-- The source's `QueueItemGreater` strict weak order, read off as "which
element does `top()` yield first": fewer facets first, and among equal
facet counts the smaller progress mark first (`std::priority_queue` pops
the maximum of a greater-style comparator). -/
def keyLt {α : Type} (A : Algebra α) (x y : UItem α) : Bool :=
  decide (A.facets x.1 < A.facets y.1) ||
    (decide (A.facets x.1 = A.facets y.1) && decide (x.2 < y.2))

/-- `CGALUtils::applyUnion3D`. -/
def applyUnion3D {α : Type} (A : Algebra α) (children : List (Child α)) :
    Option α × Bool :=
  applyUnionBy A (keyLt A) children

/-- Modelled from the spec: the claim's wording of the union queue order
("ties broken by the caller-supplied progress rank, higher rank first"),
to be compared with the source's `keyLt`. -/
def keyLtSpecHigh {α : Type} (A : Algebra α) (x y : UItem α) : Bool :=
  decide (A.facets x.1 < A.facets y.1) ||
    (decide (A.facets x.1 = A.facets y.1) && decide (y.2 < x.2))

/-- Modelled from the spec: `applyUnion3D` as claim C2 describes it,
popping the higher progress rank first among equal facet counts. -/
def applyUnion3D_specTieHigh {α : Type} (A : Algebra α)
    (children : List (Child α)) : Option α × Bool :=
  applyUnionBy A (keyLtSpecHigh A) children

/-- A child geometry that is null, or converts to an empty exact solid. -/
def nullOrEmpty {α : Type} (A : Algebra α) (ch : Option α) : Prop :=
  ch = none ∨ ∃ c, ch = some c ∧ A.isEmpty c = true

/-- With a null accumulator, the fold loop scans all remaining children,
applies no algebra operation, and ends with a null result (for every
operator: an Intersection null child resets to null again). -/
theorem foldGo_none_acc {α : Type} (A : Algebra α) (op : Op) :
    ∀ cs : List (Child α), foldGo A op none cs = (none, none) := by
  intro cs
  induction cs with
  | nil => rfl
  | cons x cs ih =>
    obtain ⟨t, ch⟩ := x
    cases ch with
    | none =>
      by_cases hop : op = Op.intersection
      · subst hop; simp [foldGo, ih]
      · simp [foldGo, hop, ih]
    | some c =>
      by_cases hop : op = Op.intersection
      · subst hop; by_cases hc : A.isEmpty c = true <;> simp [foldGo, hc, ih]
      · by_cases hc : A.isEmpty c = true <;> simp [foldGo, hop, hc, ih]

/-- For Difference/Minkowski, an empty (but non-null) accumulator is
terminal: every remaining child is scanned without any algebra call. -/
theorem foldGo_empty_acc {α : Type} (A : Algebra α) (op : Op)
    (hop : op = Op.difference ∨ op = Op.minkowski) (n : α)
    (hn : A.isEmpty n = true) :
    ∀ cs : List (Child α), foldGo A op (some n) cs = (some n, none) := by
  have hop2 : op ≠ Op.intersection := by rcases hop with h | h <;> subst h <;> simp
  intro cs
  induction cs with
  | nil => rfl
  | cons x cs ih =>
    obtain ⟨t, ch⟩ := x
    cases ch with
    | none => simp [foldGo, hop2, ih]
    | some c =>
      by_cases hc : A.isEmpty c = true <;> simp [foldGo, hop2, hc, hn, ih]

/-- A null-or-empty child that is not in first position is a no-op for
any operator other than Intersection: it can be deleted from the child
list without changing the fold (even in the presence of algebra
exceptions). -/
theorem foldGo_skip_middle {α : Type} (A : Algebra α) (op : Op)
    (hop : op ≠ Op.intersection) (t : Option ℤ) (bad : Option α)
    (hbad : nullOrEmpty A bad) (post : List (Child α)) :
    ∀ (xs : List (Child α)) (N : Option α),
      foldGo A op N (xs ++ (t, bad) :: post) = foldGo A op N (xs ++ post) := by
  intro xs
  induction xs with
  | nil =>
    intro N
    rcases hbad with h | ⟨c, hc, hce⟩
    · subst h; simp [foldGo, hop]
    · subst hc; simp [foldGo, hop, hce]
  | cons x xs ih =>
    intro N
    obtain ⟨tx, chx⟩ := x
    cases chx with
    | none => simp [foldGo, hop, ih]
    | some c =>
      by_cases hc : A.isEmpty c = true
      · simp [foldGo, hop, hc, ih]
      · cases N with
        | none => simp [foldGo, hc, ih]
        | some n =>
          by_cases hn : A.isEmpty n = true
          · simp [foldGo, hc, hn, ih]
          · simp only [List.cons_append, foldGo, hc, hn]
            simp only [Bool.false_eq_true, if_false]
            cases hoa : opAlg A op n c <;> simp [hoa, ih]

/-- Under an Intersection fold whose algebra never throws, reaching a
null-or-empty child anywhere in the list forces the final result to
null. -/
theorem foldGo_inter_short_circuit {α : Type} (A : Algebra α)
    (htot : ∀ x y : α, A.intersect x y ≠ none) (t : Option ℤ)
    (bad : Option α) (hbad : nullOrEmpty A bad) (post : List (Child α)) :
    ∀ (xs : List (Child α)) (N : Option α),
      (foldGo A Op.intersection N (xs ++ (t, bad) :: post)).1 = none := by
  intro xs
  induction xs with
  | nil =>
    intro N
    rcases hbad with h | ⟨c, hc, hce⟩
    · subst h; simp [foldGo, foldGo_none_acc]
    · subst hc; simp [foldGo, hce, foldGo_none_acc]
  | cons x xs ih =>
    intro N
    obtain ⟨tx, chx⟩ := x
    cases chx with
    | none => simp [foldGo, ih]
    | some c =>
      by_cases hc : A.isEmpty c = true
      · simp [foldGo, hc, ih]
      · cases N with
        | none => simp [foldGo, hc, ih]
        | some n =>
          by_cases hn : A.isEmpty n = true
          · simp [foldGo, hc, hn, ih]
          · simp only [List.cons_append, foldGo, hc, hn]
            simp only [Bool.false_eq_true, if_false]
            cases hoa : opAlg A Op.intersection n c with
            | none => exact absurd hoa (htot n c)
            | some n2 => simp [hoa, ih]

/-- The merge loop leaves an empty queue untouched. -/
theorem unionLoopBy_nil {α : Type} (A : Algebra α) (lt : UItem α → UItem α → Bool) :
    unionLoopBy A lt [] = some [] := by
  rw [unionLoopBy]; simp [popMinBy]

/-- The merge loop leaves a single-element queue untouched. -/
theorem unionLoopBy_single {α : Type} (A : Algebra α) (lt : UItem α → UItem α → Bool)
    (x : UItem α) : unionLoopBy A lt [x] = some [x] := by
  rw [unionLoopBy]; simp [popMinBy]

/-- One successful iteration of the merge loop: pop the two front
elements, unite them, push the result with synthetic mark `-1`. -/
theorem unionLoopBy_step {α : Type} (A : Algebra α) (lt : UItem α → UItem α → Bool)
    (q : List (UItem α)) (p1 : UItem α) (q1 : List (UItem α)) (p2 : UItem α)
    (q2 : List (UItem α)) (u : α)
    (hp : popMinBy lt q = some (p1, q1)) (hp2 : popMinBy lt q1 = some (p2, q2))
    (hu : A.unite p1.1 p2.1 = some u) :
    unionLoopBy A lt q = unionLoopBy A lt ((u, (-1 : ℤ)) :: q2) := by
  rw [unionLoopBy]
  split
  · rename_i hnone
    rw [hnone] at hp
    exact absurd hp (by simp)
  · rename_i pa qa ha
    rw [ha] at hp
    simp only [Option.some.injEq, Prod.mk.injEq] at hp
    obtain ⟨rfl, rfl⟩ := hp
    split
    · rename_i hnone2
      rw [hnone2] at hp2
      exact absurd hp2 (by simp)
    · rename_i pb qb hb
      rw [hb] at hp2
      simp only [Option.some.injEq, Prod.mk.injEq] at hp2
      obtain ⟨rfl, rfl⟩ := hp2
      rw [hu]

/-- If every child of a combination request is null or empty, the union
queue starts out empty. -/
theorem unionInit_nil {α : Type} (A : Algebra α) : ∀ (children : List (Child α)),
    (∀ p ∈ children, nullOrEmpty A p.2) → unionInit A children = [] := by
  intro children h
  induction children with
  | nil => rfl
  | cons p ps ih =>
    obtain ⟨tp, chp⟩ := p
    have hp := h (tp, chp) (by simp)
    have ihp := ih (fun q hq => h q (by simp [hq]))
    rcases hp with hnone | ⟨c, hc, hce⟩
    · simp only at hnone
      subst hnone
      simpa [unionInit, List.filterMap_cons] using ihp
    · simp only at hc
      subst hc
      simpa [unionInit, List.filterMap_cons, hce] using ihp

/-- If every pairwise union throws, the merge loop of `applyUnion3D`
fails as soon as the queue holds at least two elements. -/
theorem unionLoopBy_fail {α : Type} (A : Algebra α)
    (lt : UItem α → UItem α → Bool) (hfail : ∀ x y : α, A.unite x y = none)
    (q : List (UItem α)) (hq : 2 ≤ q.length) : unionLoopBy A lt q = none := by
  rw [unionLoopBy]
  split
  · rename_i hp
    rw [popMinBy_none_iff] at hp
    subst hp
    simp at hq
  · rename_i p1 q1 hp
    split
    · rename_i hp2
      rw [popMinBy_none_iff] at hp2
      subst hp2
      have hl := popMinBy_length lt q p1 [] hp
      simp at hl
      omega
    · rename_i p2 q2 hp2
      simp [hfail]

/-! ## Mesh builder and primitive tessellators (`primitives.cc`)

Coordinates of finite doubles are exact rationals.  The external
`sin_degrees`/`cos_degrees` helpers (`degree_trig.h`, outside the sampled
source) are abstracted as function parameters `sd cd : ℚ → ℚ`. -/

/-- A 3D vertex. -/
abbrev Point3 := ℚ × ℚ × ℚ

/-- A 2D vertex. -/
abbrev Point2 := ℚ × ℚ

/-- Modelled from the spec: the Mesh Builder (`PolySetBuilder`, whose
source is not part of the sampled files).  Per spec 4.2 it accumulates
de-duplicated vertices and faces; a face is built either from a fixed
index list or incrementally: `append_poly n` closes any pending face and
opens a new one, `append_vertex`/`prepend_vertex` grow the pending face
at either end, and the next `append_poly`/`result` closes it. -/
structure PSBuilder where
  verts : List Point3
  done : List (List ℕ)
  cur : List ℕ
  building : Bool
deriving DecidableEq, Repr

/-- The freshly constructed builder. -/
def PSBuilder.empty : PSBuilder := ⟨[], [], [], false⟩

/-- Index of the first point equal to `p`, if any. -/
def findPt (p : Point3) : List Point3 → Option ℕ
  | [] => none
  | q :: qs => if q = p then some 0 else (findPt p qs).map Nat.succ

/-- Modelled from the spec: `vertexIndex` returns a stable index for a
point, reusing an existing index when an equal point was already
inserted, else allocating the next one. -/
def PSBuilder.vertexIndex (b : PSBuilder) (p : Point3) : PSBuilder × ℕ :=
  match findPt p b.verts with
  | some i => (b, i)
  | none => ({ b with verts := b.verts ++ [p] }, b.verts.length)

/-- Close the pending incremental face, if one is open. -/
def PSBuilder.closeCur (b : PSBuilder) : PSBuilder :=
  if b.building then
    { b with done := b.done ++ [b.cur], cur := [], building := false }
  else b

/-- Modelled from the spec: `append_poly(int numindices)` — close any
pending face and open a new incremental one. -/
def PSBuilder.append_poly_n (b : PSBuilder) (_n : ℕ) : PSBuilder :=
  { b.closeCur with cur := [], building := true }

/-- Modelled from the spec: `append_poly(const std::vector&)` — close any
pending face and add a complete face from a fixed index list. -/
def PSBuilder.append_poly (b : PSBuilder) (f : List ℕ) : PSBuilder :=
  let b2 := b.closeCur
  { b2 with done := b2.done ++ [f] }

/-- Modelled from the spec: append one index to the pending face. -/
def PSBuilder.append_vertex (b : PSBuilder) (i : ℕ) : PSBuilder :=
  { b with cur := b.cur ++ [i] }

/-- Modelled from the spec: prepend one index to the pending face
(building the face in the opposite winding direction). -/
def PSBuilder.prepend_vertex (b : PSBuilder) (i : ℕ) : PSBuilder :=
  { b with cur := i :: b.cur }

/-- The immutable mesh: de-duplicated vertices plus faces as ordered
index lists.  The empty `PolySet(3, true)` of the degenerate cases is
`⟨[], []⟩`. -/
structure PolySet where
  vertices : List Point3
  indices : List (List ℕ)
deriving DecidableEq, Repr

/-- Modelled from the spec: `result()` finalizes the builder — the
pending face, if any, is closed — and yields the immutable mesh. -/
def PSBuilder.result (b : PSBuilder) : PolySet :=
  ⟨b.closeCur.verts, b.closeCur.done⟩

/-- Insert a list of points in order, returning the indices assigned to
each (the `corner[8]` loop of `CubeNode::createGeometry`). -/
def addPoints (b : PSBuilder) : List Point3 → PSBuilder × List ℕ
  | [] => (b, [])
  | p :: ps =>
    let r := b.vertexIndex p
    let r2 := addPoints r.1 ps
    (r2.1, r.2 :: r2.2)

/-- Vertex-index-then-`prepend_vertex` loop over positions `ks` with
point generator `g` (the shape of the cylinder quad loop and bottom-cap
loop). -/
def prependPts (g : ℕ → Point3) (ks : List ℕ) (b : PSBuilder) : PSBuilder :=
  ks.foldl (fun b k => let r := b.vertexIndex (g k); r.1.prepend_vertex r.2) b

/-- Vertex-index-then-`append_vertex` loop over positions `ks` with point
generator `g` (the shape of the cylinder top-cap loop). -/
def appendPts (g : ℕ → Point3) (ks : List ℕ) (b : PSBuilder) : PSBuilder :=
  ks.foldl (fun b k => let r := b.vertexIndex (g k); r.1.append_vertex r.2) b

/-- `generate_circle`: `fragments` points on a circle of radius `r`,
point `i` at `phi = 360·i/fragments` degrees. -/
def generate_circle (sd cd : ℚ → ℚ) (r : ℚ) (F : ℕ) : List Point2 :=
  (List.range F).map fun (i : ℕ) =>
    (r * cd ((360 * (i : ℚ)) / (F : ℚ)), r * sd ((360 * (i : ℚ)) / (F : ℚ)))

/-- Corner `i` of the cube: `(i&1?x2:x1, i&2?y2:y1, i&4?z2:z1)`. -/
def cubeCorner (x1 x2 y1 y2 z1 z2 : ℚ) (i : ℕ) : Point3 :=
  (if i % 2 = 1 then x2 else x1,
   if i / 2 % 2 = 1 then y2 else y1,
   if i / 4 % 2 = 1 then z2 else z1)

/-- The non-degenerate body of `CubeNode::createGeometry`: insert the 8
corners, then the six literal quads (top, bottom, front, right, back,
left). -/
def cubeMesh (x1 x2 y1 y2 z1 z2 : ℚ) : PolySet :=
  let r := addPoints PSBuilder.empty
    ((List.range 8).map (cubeCorner x1 x2 y1 y2 z1 z2))
  let corner := r.2
  let b := r.1
  let b := b.append_poly [corner.getD 4 0, corner.getD 5 0, corner.getD 7 0, corner.getD 6 0]
  let b := b.append_poly [corner.getD 2 0, corner.getD 3 0, corner.getD 1 0, corner.getD 0 0]
  let b := b.append_poly [corner.getD 0 0, corner.getD 1 0, corner.getD 5 0, corner.getD 4 0]
  let b := b.append_poly [corner.getD 1 0, corner.getD 3 0, corner.getD 7 0, corner.getD 5 0]
  let b := b.append_poly [corner.getD 3 0, corner.getD 2 0, corner.getD 6 0, corner.getD 7 0]
  let b := b.append_poly [corner.getD 2 0, corner.getD 0 0, corner.getD 4 0, corner.getD 6 0]
  b.result

/-- `CubeNode::createGeometry`: degenerate guard, centering, then the
literal 8-vertex 6-quad mesh. -/
def CubeNode.createGeometry (x y z : Dbl) (center : Bool) : PolySet :=
  if x.le (.fin 0) || !x.isFinite || y.le (.fin 0) || !y.isFinite
      || z.le (.fin 0) || !z.isFinite then
    ⟨[], []⟩
  else
    let qx := x.toQ
    let qy := y.toQ
    let qz := z.toQ
    if center then
      cubeMesh (-qx / 2) (qx / 2) (-qy / 2) (qy / 2) (-qz / 2) (qz / 2)
    else
      cubeMesh 0 qx 0 qy 0 qz

/-- One iteration of the cylinder side loop in the `r1 == r2` case: a
quad built by `append_poly(4)` plus four `prepend_vertex` calls, vertex
`k` at `(circle1[k&2?j:i], (k+1)&2?z2:z1)`. -/
def cylSideQuad (c1 : List Point2) (z1 z2 : ℚ) (i j : ℕ) (b : PSBuilder) : PSBuilder :=
  prependPts (fun k =>
      ((c1.getD (if k &&& 2 = 0 then i else j) (0, 0)).1,
       (c1.getD (if k &&& 2 = 0 then i else j) (0, 0)).2,
       if (k + 1) &&& 2 = 0 then z1 else z2))
    (List.range 4) (b.append_poly_n 4)

/-- One iteration of the cylinder side loop in the `r1 ≠ r2` case:
`ind1 = (circle1[j], z1)` always; a triangle `(ind1, circle2[i]@z2,
circle1[i]@z1)` when `r1 > 0`; a triangle `(ind1, circle2[j]@z2,
circle2[i]@z2)` when `r2 > 0`. -/
def cylSideTris (c1 c2 : List Point2) (z1 z2 : ℚ) (r1 r2 : ℚ) (i j : ℕ)
    (b : PSBuilder) : PSBuilder :=
  let p1 := b.vertexIndex ((c1.getD j (0, 0)).1, (c1.getD j (0, 0)).2, z1)
  let ind1 := p1.2
  let b1 :=
    if 0 < r1 then
      let p2 := p1.1.vertexIndex ((c2.getD i (0, 0)).1, (c2.getD i (0, 0)).2, z2)
      let p3 := p2.1.vertexIndex ((c1.getD i (0, 0)).1, (c1.getD i (0, 0)).2, z1)
      p3.1.append_poly [ind1, p2.2, p3.2]
    else p1.1
  if 0 < r2 then
    let p2 := b1.vertexIndex ((c2.getD j (0, 0)).1, (c2.getD j (0, 0)).2, z2)
    let p3 := p2.1.vertexIndex ((c2.getD i (0, 0)).1, (c2.getD i (0, 0)).2, z2)
    p3.1.append_poly [ind1, p2.2, p3.2]
  else b1

/-- The non-degenerate body of `CylinderNode::createGeometry`: two
generated circles, the side loop, then an end cap for each strictly
positive radius (bottom cap wound by `prepend_vertex`, top cap by
`append_vertex`). -/
def cylinderMesh (sd cd : ℚ → ℚ) (qh qr1 qr2 : ℚ) (center : Bool) (F : ℕ) :
    PolySet :=
  let z1 : ℚ := if center then -qh / 2 else 0
  let z2 : ℚ := if center then qh / 2 else qh
  let c1 := generate_circle sd cd qr1 F
  let c2 := generate_circle sd cd qr2 F
  let b := (List.range F).foldl (fun b i =>
      let j := (i + 1) % F
      if qr1 = qr2 then cylSideQuad c1 z1 z2 i j b
      else cylSideTris c1 c2 z1 z2 qr1 qr2 i j b)
    PSBuilder.empty
  let b := if 0 < qr1 then
      prependPts (fun i => ((c1.getD i (0, 0)).1, (c1.getD i (0, 0)).2, z1))
        (List.range F) (b.append_poly_n F)
    else b
  let b := if 0 < qr2 then
      appendPts (fun i => ((c2.getD i (0, 0)).1, (c2.getD i (0, 0)).2, z2))
        (List.range F) (b.append_poly_n F)
    else b
  b.result

/-- `CylinderNode::createGeometry`: degenerate guard (`h ≤ 0`, negative
or non-finite radii, both radii ≤ 0), then the side/cap construction.
The fragment count `F` comes from the external `Calc::get_fragments_from_r`
and is a parameter here. -/
def CylinderNode.createGeometry (sd cd : ℚ → ℚ) (h r1 r2 : Dbl) (center : Bool)
    (F : ℕ) : PolySet :=
  if h.le (.fin 0) || !h.isFinite || r1.lt (.fin 0) || !r1.isFinite
      || r2.lt (.fin 0) || !r2.isFinite || (r1.le (.fin 0) && r2.le (.fin 0)) then
    ⟨[], []⟩
  else
    cylinderMesh sd cd h.toQ r1.toQ r2.toQ center F

/-- The latitude-ring construction of `SphereNode::createGeometry`
(lines computing `rings = (fragments+1)/2`, `phi`, the ring radius,
height and circle points).  Ring `i` is the pair `(z, points)`. -/
def sphereRings (sd cd : ℚ → ℚ) (r : ℚ) (F : ℕ) : List (ℚ × List Point2) :=
  (List.range ((F + 1) / 2)).map fun (i : ℕ) =>
    (r * cd ((180 * ((i : ℚ) + 1 / 2)) / (((F + 1) / 2 : ℕ) : ℚ)),
     generate_circle sd cd
       (r * sd ((180 * ((i : ℚ) + 1 / 2)) / (((F + 1) / 2 : ℕ) : ℚ))) F)

/-- The ring-construction stage of `SphereNode::createGeometry`,
including its degenerate guard (`r ≤ 0` or non-finite gives the empty
mesh, hence no rings).  The subsequent cap/band assembly consumes these
rings and is not needed by the ring-geometry claim. -/
def SphereNode.createGeometryRings (sd cd : ℚ → ℚ) (r : Dbl) (F : ℕ) :
    List (ℚ × List Point2) :=
  if r.le (.fin 0) || !r.isFinite then [] else sphereRings sd cd r.toQ F

/-- `F_MINIMUM`, the fixed floor for `$fa`/`$fs`. -/
def F_MINIMUM : ℚ := 1 / 100

/-- `set_fragments`: read `$fn`/`$fs`/`$fa` and clamp `$fs` and `$fa` up
to `F_MINIMUM` with a warning when they compare below it.  Returns
`(fn, fs, fa, warned_fs, warned_fa)`. -/
def set_fragments (fn fs fa : Dbl) : Dbl × Dbl × Dbl × Bool × Bool :=
  let fsr := if fs.lt (.fin F_MINIMUM) then ((Dbl.fin F_MINIMUM), true) else (fs, false)
  let far := if fa.lt (.fin F_MINIMUM) then ((Dbl.fin F_MINIMUM), true) else (fa, false)
  (fn, fsr.1, far.1, fsr.2, far.2)

/-- One entry of a `faces=`/`paths=` inner vector: either not a number
(dropped with an error) or a point index after the `(size_t)` cast. -/
inductive IdxVal where
  | notNum
  | idx (n : ℕ)
deriving DecidableEq, Repr

/-- One entry of the `faces=`/`paths=` outer vector: `none` when the
entry is not itself a vector (dropped with an error). -/
abbrev FaceVal := Option (List IdxVal)

/-- The inner index loop shared by `builtin_polyhedron` and
`builtin_polygon`: non-numbers are dropped (error), indices `≥ np` are
dropped with a warning, in-range indices are kept in order.  Returns the
surviving indices and the number of out-of-range warnings. -/
def parseFace (np : ℕ) : List IdxVal → List ℕ × ℕ
  | [] => ([], 0)
  | .notNum :: es => parseFace np es
  | .idx n :: es =>
    let r := parseFace np es
    if n < np then (n :: r.1, r.2) else (r.1, r.2 + 1)

/-- The face loop of `builtin_polyhedron`: non-vector faces are dropped
(error); a parsed face is kept only when at least 3 indices survive. -/
def polyhedronFaces (np : ℕ) : List FaceVal → List (List ℕ) × ℕ
  | [] => ([], 0)
  | none :: fs => polyhedronFaces np fs
  | some es :: fs =>
    let f := parseFace np es
    let r := polyhedronFaces np fs
    (if 3 ≤ f.1.length then f.1 :: r.1 else r.1, f.2 + r.2)

/-- The path loop of `builtin_polygon`: non-vector paths are dropped
(error); every parsed path is kept, whatever its surviving length. -/
def polygonPaths (np : ℕ) : List FaceVal → List (List ℕ) × ℕ
  | [] => ([], 0)
  | none :: ps => polygonPaths np ps
  | some es :: ps =>
    let f := parseFace np es
    let r := polygonPaths np ps
    (f.1 :: r.1, f.2 + r.2)

/-- All three converted coordinates pass `std::isfinite`. -/
def goodVec3 (p : Dbl × Dbl × Dbl) : Bool :=
  p.1.isFinite && p.2.1.isFinite && p.2.2.isFinite

/-- Both converted coordinates pass `std::isfinite`. -/
def goodVec2 (p : Dbl × Dbl) : Bool :=
  p.1.isFinite && p.2.isFinite

/-- The `points=` loop of `builtin_polyhedron`: an entry is `none` when
`getVec3` fails; an entry that fails conversion or has a non-finite
coordinate is reported as an error and stored as `{0, 0, 0}`; every
entry stores exactly one point.  Returns the stored points and the
error count. -/
def parsePoints3 : List (Option (Dbl × Dbl × Dbl)) → List (Dbl × Dbl × Dbl) × ℕ
  | [] => ([], 0)
  | e :: es =>
    let r := parsePoints3 es
    match e with
    | some p =>
      if goodVec3 p then (p :: r.1, r.2)
      else ((.fin 0, .fin 0, .fin 0) :: r.1, r.2 + 1)
    | none => ((.fin 0, .fin 0, .fin 0) :: r.1, r.2 + 1)

/-- The `points=` loop of `builtin_polygon`: as for the polyhedron but
with `getVec2` and the placeholder `{0, 0}`. -/
def parsePoints2 : List (Option (Dbl × Dbl)) → List (Dbl × Dbl) × ℕ
  | [] => ([], 0)
  | e :: es =>
    let r := parsePoints2 es
    match e with
    | some p =>
      if goodVec2 p then (p :: r.1, r.2)
      else ((.fin 0, .fin 0) :: r.1, r.2 + 1)
    | none => ((.fin 0, .fin 0) :: r.1, r.2 + 1)

/-- Normalized undirected edges of one face (consecutive index pairs,
wrapping around). -/
def faceEdges (f : List ℕ) : List (ℕ × ℕ) :=
  (f.zip (f.rotate 1)).map fun p => (min p.1 p.2, max p.1 p.2)

/-- Number of faces containing a given undirected edge, with
multiplicity. -/
def edgeCount (faces : List (List ℕ)) (e : ℕ × ℕ) : ℕ :=
  (faces.map fun f => (faceEdges f).count e).sum

/-- Every edge of the face set lies on exactly two faces (the
closed-manifold edge condition). -/
def closedEdges (faces : List (List ℕ)) : Prop :=
  ∀ e ∈ (faces.map faceEdges).join, edgeCount faces e = 2

/-- Concrete instance of the opaque algebra on lists, used to exhibit
behaviors at explicit inputs: `unite` is concatenation (not commutative,
so the merge order is observable) and the facet count is the length. -/
def listAlg : Algebra (List ℕ) where
  isEmpty := List.isEmpty
  facets := List.length
  unite := fun a b => some (a ++ b)
  intersect := fun a _ => some a
  diff := fun a _ => some a
  minkow := fun a _ => some a

/-- Concrete algebra whose every binary operation throws, modelling
pathological operands on which the exact arithmetic always raises
`CGAL::Failure_exception`. -/
def failAlg : Algebra ℕ where
  isEmpty := fun _ => false
  facets := fun n => n
  unite := fun _ _ => none
  intersect := fun _ _ => none
  diff := fun _ _ => none
  minkow := fun _ _ => none

/-- Claim C1, counterexample: when the algebra throws during a
Difference fold of two non-empty solids, `applyOperator3D` logs the
error but returns the accumulator built from the first child — a
non-null partial result, not null as the claim states. -/
theorem C1_counterexample :
    applyOperator3D failAlg [(none, some 1), (none, some 2)] Op.difference
      = (some 1, some "difference") ∧ (some 1 : Option ℕ) ≠ none :=
  ⟨rfl, by simp⟩

/-- Claim C1 (amended): an algebra throw during the n-ary union merge
makes `applyUnion3D` report the error and return null; an algebra throw
during the Difference/Intersection/Minkowski fold makes
`applyOperator3D` report the error under the operator's logged name
(`"UNKNOWN"` for Minkowski) and return the accumulator as it stood at
the throw — possibly a partial intermediate solid, not necessarily
null — ignoring all remaining children; in neither case does the
(total) function abort. -/
theorem C1_exception_containment :
    (∀ (α : Type) (A : Algebra α) (children : List (Child α)),
        (∀ x y : α, A.unite x y = none) →
        2 ≤ (unionInit A children).length →
        applyUnion3D A children = (none, true)) ∧
    (∀ (α : Type) (A : Algebra α) (op : Op) (t0 t : Option ℤ) (c0 c : α)
        (cs : List (Child α)),
        A.isEmpty c0 = false → A.isEmpty c = false →
        opAlg A op c0 c = none →
        applyOperator3D A ((t0, some c0) :: (t, some c) :: cs) op
          = (some c0, some (opName op))) := by
  constructor
  · intro α A children hfail hlen
    unfold applyUnion3D applyUnionBy
    rw [unionLoopBy_fail A _ hfail _ hlen]
  · intro α A op t0 t c0 c cs hc0 hc herr
    simp [applyOperator3D, foldGo, hc0, hc, herr]

/-- Witness for C1 at concrete inputs: a two-child union over the
always-throwing algebra yields null with the error flag, and a
Minkowski fold that throws returns the first child with the logged
operator name `"UNKNOWN"`. -/
theorem C1_witness :
    applyUnion3D failAlg [(none, some 1), (none, some 2)] = (none, true) ∧
    applyOperator3D failAlg [(none, some 3), (none, some 4)] Op.minkowski
      = (some 3, some "UNKNOWN") := by
  constructor
  · exact C1_exception_containment.1 ℕ failAlg _ (fun x y => rfl) (by decide)
  · exact C1_exception_containment.2 ℕ failAlg Op.minkowski none none 3 4 [] rfl rfl rfl

/-- Claim C2 (amended): `applyUnion3D` inserts every non-null non-empty
child into the queue and repeatedly unites the two elements with the
fewest facets, reinserting with synthetic rank `-1`; ties on facet count
are broken by the progress rank with the LOWER rank popped first (the
claim's "higher rank first" is the reverse of the comparator); if every
child is null or empty the result is null. -/
theorem C2_union_queue_order :
    (∀ (α : Type) (A : Algebra α) (children : List (Child α)),
        (∀ p ∈ children, nullOrEmpty A p.2) →
        applyUnion3D A children = (none, false)) ∧
    (∀ (α : Type) (A : Algebra α) (t : Option ℤ) (c : α),
        A.isEmpty c = false →
        applyUnion3D A [(t, some c)] = (some c, false)) ∧
    (∀ (α : Type) (A : Algebra α) (c1 c2 u : α) (m1 m2 : ℤ),
        A.isEmpty c1 = false → A.isEmpty c2 = false →
        A.facets c1 = A.facets c2 → m2 < m1 →
        A.unite c2 c1 = some u →
        applyUnion3D A [(some m1, some c1), (some m2, some c2)]
          = (some u, false)) ∧
    (∀ (α : Type) (A : Algebra α) (c1 c2 c3 u12 u : α) (m1 m2 m3 : ℤ),
        A.isEmpty c1 = false → A.isEmpty c2 = false → A.isEmpty c3 = false →
        A.facets c1 < A.facets c2 → A.facets c2 < A.facets c3 →
        A.unite c1 c2 = some u12 → A.facets u12 < A.facets c3 →
        A.unite u12 c3 = some u →
        applyUnion3D A [(some m1, some c1), (some m2, some c2), (some m3, some c3)]
          = (some u, false)) := by
  refine ⟨?_, ?_, ?_, ?_⟩
  · intro α A children hall
    unfold applyUnion3D applyUnionBy
    rw [unionInit_nil A children hall, unionLoopBy_nil]
  · intro α A t c hc
    unfold applyUnion3D applyUnionBy
    have hinit : unionInit A [(t, some c)]
        = [(c, match t with | some m => m | none => -1)] := by
      simp [unionInit, List.filterMap_cons, hc]
    rw [hinit, unionLoopBy_single]
  · intro α A c1 c2 u m1 m2 he1 he2 hf hm hu
    unfold applyUnion3D applyUnionBy
    have hinit : unionInit A [(some m1, some c1), (some m2, some c2)]
        = [(c1, m1), (c2, m2)] := by
      simp [unionInit, List.filterMap_cons, he1, he2]
    have hklt : keyLt A (c2, m2) (c1, m1) = true := by
      simp [keyLt, ← hf, hm]
    have hpop : popMinBy (keyLt A) [(c1, m1), (c2, m2)]
        = some ((c2, m2), [(c1, m1)]) := by
      simp [popMinBy, hklt]
    have hpop2 : popMinBy (keyLt A) [((c1 : α), m1)] = some ((c1, m1), []) := by
      simp [popMinBy]
    rw [hinit, unionLoopBy_step A _ _ _ _ _ _ _ hpop hpop2 hu, unionLoopBy_single]
  · intro α A c1 c2 c3 u12 u m1 m2 m3 he1 he2 he3 hf12 hf23 hu12 hfm hu
    unfold applyUnion3D applyUnionBy
    have hinit : unionInit A [(some m1, some c1), (some m2, some c2), (some m3, some c3)]
        = [(c1, m1), (c2, m2), (c3, m3)] := by
      simp [unionInit, List.filterMap_cons, he1, he2, he3]
    have hk32 : keyLt A (c3, m3) (c2, m2) = false := by
      simp [keyLt]
      exact ⟨by omega, fun h => by omega⟩
    have hk21 : keyLt A (c2, m2) (c1, m1) = false := by
      simp [keyLt]
      exact ⟨by omega, fun h => by omega⟩
    have hk3m : keyLt A (c3, m3) (u12, (-1 : ℤ)) = false := by
      simp [keyLt]
      exact ⟨by omega, fun h => by omega⟩
    have hpop : popMinBy (keyLt A) [(c1, m1), (c2, m2), (c3, m3)]
        = some ((c1, m1), [(c2, m2), (c3, m3)]) := by
      simp [popMinBy, hk32, hk21]
    have hpop2 : popMinBy (keyLt A) [(c2, m2), (c3, m3)]
        = some ((c2, m2), [(c3, m3)]) := by
      simp [popMinBy, hk32]
    have hpop3 : popMinBy (keyLt A) [(u12, (-1 : ℤ)), (c3, m3)]
        = some ((u12, (-1 : ℤ)), [(c3, m3)]) := by
      simp [popMinBy, hk3m]
    have hpop4 : popMinBy (keyLt A) [((c3 : α), m3)] = some ((c3, m3), []) := by
      simp [popMinBy]
    rw [hinit, unionLoopBy_step A _ _ _ _ _ _ _ hpop hpop2 hu12,
      unionLoopBy_step A _ _ _ _ _ _ _ hpop3 hpop4 hu, unionLoopBy_single]

/-- Claim C2, counterexample: two equal-facet children with progress
ranks 5 and 3.  The source's comparator pops the LOWER rank (3) first,
giving union operand order `[2] ++ [1]`; the claim's "higher rank first"
order would give `[1] ++ [2]`.  The two disagree. -/
theorem C2_counterexample :
    applyUnion3D listAlg [(some 5, some [1]), (some 3, some [2])]
      = (some [2, 1], false) ∧
    applyUnion3D_specTieHigh listAlg [(some 5, some [1]), (some 3, some [2])]
      = (some [1, 2], false) ∧
    ([2, 1] : List ℕ) ≠ [1, 2] := by
  refine ⟨?_, ?_, by simp⟩
  · exact C2_union_queue_order.2.2.1 (List ℕ) listAlg [1] [2] [2, 1] 5 3
      rfl rfl rfl (by omega) rfl
  · unfold applyUnion3D_specTieHigh applyUnionBy
    have hinit : unionInit listAlg [(some 5, some [1]), (some 3, some [2])]
        = [([1], 5), ([2], 3)] := by simp [unionInit, listAlg]
    have hpop : popMinBy (keyLtSpecHigh listAlg) [([1], 5), ([2], 3)]
        = some (([1], 5), [([2], 3)]) := by
      simp [popMinBy, keyLtSpecHigh, listAlg]
    have hpop2 : popMinBy (keyLtSpecHigh listAlg) [(([2] : List ℕ), (3 : ℤ))]
        = some (([2], 3), []) := by
      simp [popMinBy]
    rw [hinit, unionLoopBy_step listAlg _ _ _ _ _ _ _ hpop hpop2 rfl,
      unionLoopBy_single]
    rfl

/-- Witness for C2 at concrete inputs: an all-null request yields null,
and an equal-facet pair with ranks 7 and 2 merges the rank-2 child as
the left union operand. -/
theorem C2_witness :
    applyUnion3D listAlg [((none : Option ℤ), (none : Option (List ℕ)))]
      = (none, false) ∧
    applyUnion3D listAlg [(some 7, some [10]), (some 2, some [20])]
      = (some [20, 10], false) := by
  constructor
  · exact C2_union_queue_order.1 (List ℕ) listAlg _
      (by intro p hp; rw [List.mem_singleton] at hp; subst hp; exact Or.inl rfl)
  · exact C2_union_queue_order.2.2.1 (List ℕ) listAlg [10] [20] [20, 10] 7 2
      rfl rfl rfl (by omega) rfl

/-- Claim C3: in an Intersection fold whose algebra calls all succeed, a
null or empty child anywhere after the first forces the whole result to
null, regardless of the children around it. -/
theorem C3_intersection_short_circuit {α : Type} (A : Algebra α)
    (htot : ∀ x y : α, A.intersect x y ≠ none)
    (pre : List (Child α)) (hpre : pre ≠ []) (t : Option ℤ) (bad : Option α)
    (hbad : nullOrEmpty A bad) (post : List (Child α)) :
    (applyOperator3D A (pre ++ (t, bad) :: post) Op.intersection).1 = none := by
  cases pre with
  | nil => exact absurd rfl hpre
  | cons p0 pre2 =>
    obtain ⟨t0, ch0⟩ := p0
    simp only [List.cons_append, applyOperator3D]
    exact foldGo_inter_short_circuit A htot t bad hbad post pre2 ch0

/-- Witness for C3 at a concrete input: `[A, null, C]` with non-empty A
and C intersects to null. -/
theorem C3_witness :
    (applyOperator3D listAlg
      ([(none, some [1])] ++ ((none : Option ℤ), (none : Option (List ℕ)))
        :: [(none, some [3])]) Op.intersection).1 = none :=
  C3_intersection_short_circuit listAlg (fun x y => by simp [listAlg])
    [(none, some [1])] (by simp) none none (Or.inl rfl) [(none, some [3])]

/-- Claim C4: for Difference/Minkowski folds, (1) a null first child
makes the whole result null, (2) a null-or-empty later child is skipped
without affecting the result, (3) a null accumulator and (4) an empty
accumulator are terminal — the remaining children are scanned with no
further algebra application (and the fold, a total function, cannot
crash). -/
theorem C4_null_empty_handling {α : Type} (A : Algebra α) (op : Op)
    (hop : op = Op.difference ∨ op = Op.minkowski) :
    (∀ (t : Option ℤ) (cs : List (Child α)),
        (applyOperator3D A ((t, none) :: cs) op).1 = none) ∧
    (∀ (pre : List (Child α)) (t : Option ℤ) (bad : Option α)
        (post : List (Child α)), pre ≠ [] → nullOrEmpty A bad →
        applyOperator3D A (pre ++ (t, bad) :: post) op
          = applyOperator3D A (pre ++ post) op) ∧
    (∀ cs : List (Child α), foldGo A op none cs = (none, none)) ∧
    (∀ (n : α) (cs : List (Child α)), A.isEmpty n = true →
        foldGo A op (some n) cs = (some n, none)) := by
  have hop2 : op ≠ Op.intersection := by rcases hop with h | h <;> subst h <;> simp
  refine ⟨?_, ?_, ?_, ?_⟩
  · intro t cs
    simp [applyOperator3D, foldGo_none_acc]
  · intro pre t bad post hpre hbad
    cases pre with
    | nil => exact absurd rfl hpre
    | cons p0 pre2 =>
      obtain ⟨t0, ch0⟩ := p0
      simp only [List.cons_append, applyOperator3D]
      exact foldGo_skip_middle A op hop2 t bad hbad post pre2 ch0
  · exact foldGo_none_acc A op
  · intro n cs hn
    exact foldGo_empty_acc A op hop n hn cs

/-- Witness for C4 at concrete inputs over the list algebra, one per
conjunct of `C4_null_empty_handling`. -/
theorem C4_witness :
    (applyOperator3D listAlg
      [((none : Option ℤ), (none : Option (List ℕ))), (none, some [1])]
      Op.difference).1 = none ∧
    applyOperator3D listAlg
        ([(none, some [1])] ++ ((none : Option ℤ), (none : Option (List ℕ)))
          :: [(none, some [2])]) Op.difference
      = applyOperator3D listAlg ([(none, some [1])] ++ [(none, some [2])])
          Op.difference ∧
    foldGo listAlg Op.difference none [(none, some [5])] = (none, none) ∧
    foldGo listAlg Op.difference (some []) [(none, some [7])] = (some [], none) := by
  have h := C4_null_empty_handling listAlg Op.difference (Or.inl rfl)
  exact ⟨h.1 none _,
    h.2.1 [(none, some [1])] none none [(none, some [2])] (by simp) (Or.inl rfl),
    h.2.2.1 _, h.2.2.2 [] _ rfl⟩

/-- Indexing a mapped range at `i < n` gives `f i`. -/
theorem getD_map_range {β : Type} (f : ℕ → β) (n i : ℕ) (d : β) (h : i < n) :
    ((List.range n).map f).getD i d = f i := by
  rw [List.getD_eq_getElem?_getD, List.getElem?_map, List.getElem?_range h]
  rfl

/-- Claim C9, counterexample: a NaN `$fs` input fails the `fs < 0.01`
comparison, is passed through unclamped (and unwarned), and the
resulting effective value does not satisfy `0.01 <= fs`. -/
theorem C9_counterexample :
    (set_fragments (.fin 1) .nan (.fin 12)).2.1 = Dbl.nan ∧
    Dbl.le (.fin F_MINIMUM) Dbl.nan = false := by
  constructor <;> rfl

/-- Clamping any non-NaN double below `F_MINIMUM` up to `F_MINIMUM`
yields a value at least `F_MINIMUM`. -/
theorem clamp_floor_ge (x : Dbl) (hx : x ≠ Dbl.nan) :
    Dbl.le (.fin F_MINIMUM)
      (if x.lt (.fin F_MINIMUM) then Dbl.fin F_MINIMUM else x) = true := by
  cases x with
  | fin q =>
    by_cases hq : q < F_MINIMUM
    · simp [Dbl.lt, hq, Dbl.le]
    · simp [Dbl.lt, hq, Dbl.le]
      linarith
  | inf => simp [Dbl.lt, Dbl.le]
  | ninf => simp [Dbl.lt, Dbl.le]
  | nan => exact absurd rfl hx

/-- Claim C9 (amended): for non-NaN `$fs`/`$fa` inputs the effective
values after `set_fragments` are at least `F_MINIMUM = 0.01`, a warning
is reported for each exactly when the input compares below the floor,
and `$fn` is passed through; a NaN input is passed through unchanged
with no warning. -/
theorem C9_resolution_floor :
    (∀ fn fs fa : Dbl, fs ≠ Dbl.nan → fa ≠ Dbl.nan →
        Dbl.le (.fin F_MINIMUM) ((set_fragments fn fs fa).2.1) = true ∧
        Dbl.le (.fin F_MINIMUM) ((set_fragments fn fs fa).2.2.1) = true) ∧
    (∀ fn fs fa : Dbl,
        ((set_fragments fn fs fa).2.2.2.1 = true ↔ fs.lt (.fin F_MINIMUM) = true) ∧
        ((set_fragments fn fs fa).2.2.2.2 = true ↔ fa.lt (.fin F_MINIMUM) = true) ∧
        (set_fragments fn fs fa).1 = fn) ∧
    (∀ fn fa : Dbl, (set_fragments fn Dbl.nan fa).2.1 = Dbl.nan ∧
        (set_fragments fn Dbl.nan fa).2.2.2.1 = false) := by
  refine ⟨?_, ?_, ?_⟩
  · intro fn fs fa hfs hfa
    constructor
    · simpa [set_fragments, apply_ite (Prod.fst : Dbl × Bool → Dbl)]
        using clamp_floor_ge fs hfs
    · simpa [set_fragments, apply_ite (Prod.fst : Dbl × Bool → Dbl)]
        using clamp_floor_ge fa hfa
  · intro fn fs fa
    refine ⟨?_, ?_, rfl⟩ <;> by_cases h : Dbl.lt fs (.fin F_MINIMUM) = true <;>
      by_cases h2 : Dbl.lt fa (.fin F_MINIMUM) = true <;>
      simp [set_fragments, h, h2]
  · intro fn fa
    constructor <;> simp [set_fragments, Dbl.lt]

/-- Witness for C9 at concrete inputs: `$fs = 0` is clamped to the
floor with a warning, `$fa = 9` is left alone. -/
theorem C9_witness :
    Dbl.le (.fin F_MINIMUM) ((set_fragments (.fin 5) (.fin 0) (.fin 9)).2.1) = true ∧
    Dbl.le (.fin F_MINIMUM) ((set_fragments (.fin 5) (.fin 0) (.fin 9)).2.2.1) = true ∧
    ((set_fragments (.fin 5) (.fin 0) (.fin 9)).2.2.2.1 = true
      ↔ Dbl.lt (.fin 0) (.fin F_MINIMUM) = true) := by
  refine ⟨(C9_resolution_floor.1 (.fin 5) (.fin 0) (.fin 9) (by simp) (by simp)).1,
    (C9_resolution_floor.1 (.fin 5) (.fin 0) (.fin 9) (by simp) (by simp)).2,
    (C9_resolution_floor.2.1 (.fin 5) (.fin 0) (.fin 9)).1⟩

/-- Every index surviving the inner face/path index filter is in
range. -/
theorem parseFace_lt (np : ℕ) :
    ∀ (entries : List IdxVal) (i : ℕ), i ∈ (parseFace np entries).1 → i < np := by
  intro entries
  induction entries with
  | nil => intro i h; simp [parseFace] at h
  | cons e es ih =>
    intro i h
    cases e with
    | notNum => exact ih i h
    | idx n =>
      simp only [parseFace] at h
      by_cases hn : n < np
      · simp [hn] at h
        rcases h with rfl | h
        · exact hn
        · exact ih i h
      · simp [hn] at h
        exact ih i h

/-- Claim C8, counterexample: a polygon path that retains only 2 valid
indices after out-of-range filtering is NOT dropped — `builtin_polygon`
pushes every parsed path whatever its surviving length (only
`builtin_polyhedron` applies the `>= 3` filter). -/
theorem C8_counterexample :
    (polygonPaths 2 [some [.idx 0, .idx 1, .idx 5]]).1 = [[0, 1]] ∧
    (polygonPaths 2 [some [.idx 0, .idx 1, .idx 5]]).2 = 1 ∧
    ([0, 1] : List ℕ).length < 3 := by
  refine ⟨rfl, rfl, by decide⟩

/-- Claim C8 (amended): out-of-range face/path indices are dropped with
a warning counted per occurrence, every surviving index is in range, and
a polyhedron face is kept only when at least 3 indices survive; polygon
paths, however, are all kept (one per vector-valued path entry),
whatever their surviving length. -/
theorem C8_index_filtering :
    (∀ (np : ℕ) (faces : List FaceVal) (f : List ℕ),
        f ∈ (polyhedronFaces np faces).1 → 3 ≤ f.length ∧ ∀ i ∈ f, i < np) ∧
    (∀ (np : ℕ) (entries : List IdxVal),
        (parseFace np entries).2 = entries.countP
          (fun e => match e with | .idx n => decide (np ≤ n) | .notNum => false)) ∧
    (∀ (np : ℕ) (paths : List FaceVal),
        (polygonPaths np paths).1
          = paths.filterMap (fun pv => pv.map (fun es => (parseFace np es).1))) ∧
    (∀ (np : ℕ) (paths : List FaceVal) (f : List ℕ),
        f ∈ (polygonPaths np paths).1 → ∀ i ∈ f, i < np) := by
  refine ⟨?_, ?_, ?_, ?_⟩
  · intro np faces
    induction faces with
    | nil => intro f h; simp [polyhedronFaces] at h
    | cons fv fs ih =>
      intro f h
      cases fv with
      | none => exact ih f h
      | some es =>
        simp only [polyhedronFaces] at h
        by_cases h3 : 3 ≤ (parseFace np es).1.length
        · simp [h3] at h
          rcases h with rfl | h
          · exact ⟨h3, fun i hi => parseFace_lt np es i hi⟩
          · exact ih f h
        · simp [h3] at h
          exact ih f h
  · intro np entries
    induction entries with
    | nil => rfl
    | cons e es ih =>
      cases e with
      | notNum => simpa [parseFace, List.countP_cons] using ih
      | idx n =>
        by_cases hn : n < np
        · have : ¬ np ≤ n := by omega
          simp [parseFace, List.countP_cons, hn, this, ih]
        · have : np ≤ n := by omega
          simp [parseFace, List.countP_cons, hn, this, ih]
  · intro np paths
    induction paths with
    | nil => rfl
    | cons pv ps ih =>
      cases pv with
      | none => simpa [polygonPaths, List.filterMap_cons] using ih
      | some es => simpa [polygonPaths, List.filterMap_cons] using ih
  · intro np paths
    induction paths with
    | nil => intro f h; simp [polygonPaths] at h
    | cons pv ps ih =>
      intro f h
      cases pv with
      | none => exact ih f h
      | some es =>
        simp only [polygonPaths] at h
        rcases (List.mem_cons.mp h) with rfl | h
        · exact fun i hi => parseFace_lt np es i hi
        · exact ih f h

/-- Witness for C8 at concrete inputs: a 3-index polyhedron face is
kept in full, and a polygon path list equals its per-path filtered
image. -/
theorem C8_witness :
    (3 ≤ ([0, 1, 2] : List ℕ).length ∧ ∀ i ∈ ([0, 1, 2] : List ℕ), i < 3) ∧
    (polygonPaths 2 [some [.idx 0, .idx 5]]).1
      = [some [IdxVal.idx 0, IdxVal.idx 5]].filterMap
          (fun pv => pv.map (fun es => (parseFace 2 es).1)) := by
  constructor
  · exact C8_index_filtering.1 3 [some [.idx 0, .idx 1, .idx 2]] [0, 1, 2] (by decide)
  · exact C8_index_filtering.2.2.1 2 [some [.idx 0, .idx 5]]



/-- Claim C10: each `points=` entry that fails conversion or has a
non-finite coordinate is stored as the zero placeholder and counted as
an error; convertible finite entries are stored as converted; the stored
list has exactly one point per input entry (so face/path indices keep
referring to the same positions), for both the polyhedron (vec3) and
polygon (vec2) parsers. -/
theorem C10_points_placeholder :
    (∀ entries : List (Option (Dbl × Dbl × Dbl)),
        (parsePoints3 entries).1.length = entries.length ∧
        (parsePoints3 entries).2 = entries.countP
          (fun e => match e with | some p => !goodVec3 p | none => true)) ∧
    (∀ (entries : List (Option (Dbl × Dbl × Dbl))) (k : ℕ) (p : Dbl × Dbl × Dbl),
        entries[k]? = some (some p) → goodVec3 p = true →
        (parsePoints3 entries).1[k]? = some p) ∧
    (∀ (entries : List (Option (Dbl × Dbl × Dbl))) (k : ℕ),
        (entries[k]? = some none ∨
          (∃ p, entries[k]? = some (some p) ∧ goodVec3 p = false)) →
        (parsePoints3 entries).1[k]? = some (.fin 0, .fin 0, .fin 0)) ∧
    (∀ entries : List (Option (Dbl × Dbl)),
        (parsePoints2 entries).1.length = entries.length ∧
        (parsePoints2 entries).2 = entries.countP
          (fun e => match e with | some p => !goodVec2 p | none => true)) ∧
    (∀ (entries : List (Option (Dbl × Dbl))) (k : ℕ),
        (entries[k]? = some none ∨
          (∃ p, entries[k]? = some (some p) ∧ goodVec2 p = false)) →
        (parsePoints2 entries).1[k]? = some (.fin 0, .fin 0)) := by
  refine ⟨?_, ?_, ?_, ?_, ?_⟩
  · intro entries
    induction entries with
    | nil => exact ⟨rfl, rfl⟩
    | cons e es ih =>
      cases e with
      | none => simp [parsePoints3, List.countP_cons, ih.1, ih.2]
      | some p =>
        by_cases hg : goodVec3 p = true <;>
          simp [parsePoints3, List.countP_cons, hg, ih.1, ih.2]
  · intro entries
    induction entries with
    | nil => intro k p h; simp at h
    | cons e es ih =>
      intro k p h hg
      cases k with
      | zero =>
        simp at h
        subst h
        simp [parsePoints3, hg]
      | succ k =>
        simp at h
        have := ih k p h hg
        cases e with
        | none => simpa [parsePoints3] using this
        | some q =>
          by_cases hq : goodVec3 q = true <;> simpa [parsePoints3, hq] using this
  · intro entries
    induction entries with
    | nil => intro k h; rcases h with h | ⟨p, h, _⟩ <;> simp at h
    | cons e es ih =>
      intro k h
      cases k with
      | zero =>
        rcases h with h | ⟨p, h, hp⟩
        · simp at h
          subst h
          simp [parsePoints3]
        · simp at h
          subst h
          simp [parsePoints3, hp]
      | succ k =>
        have : es[k]? = some none ∨
            ∃ p, es[k]? = some (some p) ∧ goodVec3 p = false := by
          rcases h with h | ⟨p, h, hp⟩
          · simp at h; exact Or.inl h
          · simp at h; exact Or.inr ⟨p, h, hp⟩
        have hrec := ih k this
        cases e with
        | none => simpa [parsePoints3] using hrec
        | some q =>
          by_cases hq : goodVec3 q = true <;> simpa [parsePoints3, hq] using hrec
  · intro entries
    induction entries with
    | nil => exact ⟨rfl, rfl⟩
    | cons e es ih =>
      cases e with
      | none => simp [parsePoints2, List.countP_cons, ih.1, ih.2]
      | some p =>
        by_cases hg : goodVec2 p = true <;>
          simp [parsePoints2, List.countP_cons, hg, ih.1, ih.2]
  · intro entries
    induction entries with
    | nil => intro k h; rcases h with h | ⟨p, h, _⟩ <;> simp at h
    | cons e es ih =>
      intro k h
      cases k with
      | zero =>
        rcases h with h | ⟨p, h, hp⟩
        · simp at h
          subst h
          simp [parsePoints2]
        · simp at h
          subst h
          simp [parsePoints2, hp]
      | succ k =>
        have : es[k]? = some none ∨
            ∃ p, es[k]? = some (some p) ∧ goodVec2 p = false := by
          rcases h with h | ⟨p, h, hp⟩
          · simp at h; exact Or.inl h
          · simp at h; exact Or.inr ⟨p, h, hp⟩
        have hrec := ih k this
        cases e with
        | none => simpa [parsePoints2] using hrec
        | some q =>
          by_cases hq : goodVec2 q = true <;> simpa [parsePoints2, hq] using hrec

/-- Witness for C10 at a concrete input: a good entry, a NaN entry and
an unconvertible entry store as the point, `{0,0,0}`, `{0,0,0}`. -/
theorem C10_witness :
    (parsePoints3 [some (.fin 1, .fin 2, .fin 3), some (.fin 1, .nan, .fin 0), none]).1.length
        = 3 ∧
    (parsePoints3 [some (.fin 1, .fin 2, .fin 3), some (.fin 1, .nan, .fin 0), none]).1[1]?
        = some (.fin 0, .fin 0, .fin 0) ∧
    (parsePoints3 [some (.fin 1, .fin 2, .fin 3), some (.fin 1, .nan, .fin 0), none]).1[0]?
        = some (.fin 1, .fin 2, .fin 3) := by
  refine ⟨(C10_points_placeholder.1 _).1, ?_, ?_⟩
  · exact C10_points_placeholder.2.2.1 _ 1 (Or.inr ⟨_, rfl, rfl⟩)
  · exact C10_points_placeholder.2.1 _ 0 _ rfl rfl



/-- Claim C7: for a positive finite radius, the sphere tessellator
builds `(F+1)/2` latitude rings of `F` points each; ring `i` lies at
height `r·cos(phi)` with its circle generated at radius `r·sin(phi)`,
where `phi = 180·(i+0.5)/rings` degrees and point `j` of the ring is at
fragment angle `360·j/F` degrees. -/
theorem C7_sphere_ring_geometry (sd cd : ℚ → ℚ) (r : Dbl) (F : ℕ)
    (h1 : Dbl.le r (.fin 0) = false) (h2 : r.isFinite = true) :
    (SphereNode.createGeometryRings sd cd r F).length = (F + 1) / 2 ∧
    ∀ i, i < (F + 1) / 2 →
      ((SphereNode.createGeometryRings sd cd r F).getD i (0, [])).1
          = r.toQ * cd ((180 * ((i : ℚ) + 1 / 2)) / (((F + 1) / 2 : ℕ) : ℚ)) ∧
      ((SphereNode.createGeometryRings sd cd r F).getD i (0, [])).2.length = F ∧
      ∀ j, j < F →
        ((SphereNode.createGeometryRings sd cd r F).getD i (0, [])).2.getD j (0, 0)
          = (r.toQ * sd ((180 * ((i : ℚ) + 1 / 2)) / (((F + 1) / 2 : ℕ) : ℚ))
               * cd ((360 * (j : ℚ)) / (F : ℚ)),
             r.toQ * sd ((180 * ((i : ℚ) + 1 / 2)) / (((F + 1) / 2 : ℕ) : ℚ))
               * sd ((360 * (j : ℚ)) / (F : ℚ))) := by
  have hguard : SphereNode.createGeometryRings sd cd r F = sphereRings sd cd r.toQ F := by
    simp [SphereNode.createGeometryRings, h1, h2]
  rw [hguard]
  constructor
  · simp [sphereRings]
  · intro i hi
    rw [sphereRings, getD_map_range _ _ _ _ hi]
    refine ⟨rfl, by simp [generate_circle], ?_⟩
    intro j hj
    rw [generate_circle, getD_map_range _ _ _ _ hj]

/-- Witness for C7 at concrete inputs (`r = 2`, `F = 7`, identity in
place of the trig helpers): 4 rings, ring 1 at the stated polar
angle with 7 points. -/
theorem C7_witness :
    (SphereNode.createGeometryRings (fun q => q) (fun q => q) (.fin 2) 7).length
        = (7 + 1) / 2 ∧
    ((SphereNode.createGeometryRings (fun q => q) (fun q => q) (.fin 2) 7).getD 1 (0, [])).1
        = (Dbl.fin 2).toQ * ((180 * ((1 : ℚ) + 1 / 2)) / (((7 + 1) / 2 : ℕ) : ℚ)) ∧
    ((SphereNode.createGeometryRings (fun q => q) (fun q => q) (.fin 2) 7).getD 1 (0, [])).2.length
        = 7 := by
  have h := C7_sphere_ring_geometry (fun q => q) (fun q => q) (.fin 2) 7 rfl rfl
  exact ⟨h.1, (h.2 1 (by norm_num)).1, (h.2 1 (by norm_num)).2.1⟩

instance (faces : List (List ℕ)) : Decidable (closedEdges faces) := by
  unfold closedEdges
  infer_instance

example : closedEdges [[4,5,7,6],[2,3,1,0],[0,1,5,4],[1,3,7,5],[3,2,6,7],[2,0,4,6]] := by
  decide

/-- The eight cube corners are pairwise distinct points when the three
coordinate pairs are distinct. -/
theorem cubeCorner_inj (x1 x2 y1 y2 z1 z2 : ℚ) (hx : x1 ≠ x2) (hy : y1 ≠ y2)
    (hz : z1 ≠ z2) : ∀ i < 8, ∀ j < 8,
      cubeCorner x1 x2 y1 y2 z1 z2 i = cubeCorner x1 x2 y1 y2 z1 z2 j → i = j := by
  have hx2 : x2 ≠ x1 := Ne.symm hx
  have hy2 : y2 ≠ y1 := Ne.symm hy
  have hz2 : z2 ≠ z1 := Ne.symm hz
  intro i hi j hj
  interval_cases i <;> interval_cases j <;>
    simp_all [cubeCorner, Prod.ext_iff]

/-- `findPt` fails exactly on points not in the list. -/
theorem findPt_none_iff (p : Point3) : ∀ l : List Point3, findPt p l = none ↔ p ∉ l := by
  intro l
  induction l with
  | nil => simp [findPt]
  | cons q qs ih =>
    by_cases hq : q = p
    · subst hq; simp [findPt]
    · simp [findPt, hq, Option.map_eq_none', ih, Ne.symm hq]

/-- `vertexIndex` on a not-yet-inserted point appends it and returns the
next index. -/
theorem vertexIndex_fresh (b : PSBuilder) (p : Point3) (h : p ∉ b.verts) :
    b.vertexIndex p = ({ b with verts := b.verts ++ [p] }, b.verts.length) := by
  rw [PSBuilder.vertexIndex, (findPt_none_iff p b.verts).mpr h]

/-- Inserting a duplicate-free list of fresh points appends them in
order and returns consecutive indices. -/
theorem addPoints_fresh :
    ∀ (ps : List Point3) (b : PSBuilder), ps.Nodup → (∀ p ∈ ps, p ∉ b.verts) →
      addPoints b ps
        = ({ b with verts := b.verts ++ ps }, List.range' b.verts.length ps.length) := by
  intro ps
  induction ps with
  | nil => intro b _ _; simp [addPoints]
  | cons p ps ih =>
    intro b hnd hni
    have hp : p ∉ b.verts := hni p (by simp)
    rw [addPoints, vertexIndex_fresh b p hp]
    have hrec := ih { b with verts := b.verts ++ [p] }
      (List.nodup_cons.mp hnd).2
      (by
        intro q hq
        simp only [List.mem_append, List.mem_singleton]
        rintro (hqv | rfl)
        · exact hni q (by simp [hq]) hqv
        · exact (List.nodup_cons.mp hnd).1 hq)
    simp only at hrec
    rw [hrec]
    simp [List.range'_succ, List.append_assoc]



/-- The mapped corner list of the cube has no duplicates. -/
theorem cubeCorners_nodup (x1 x2 y1 y2 z1 z2 : ℚ) (hx : x1 ≠ x2) (hy : y1 ≠ y2)
    (hz : z1 ≠ z2) : ((List.range 8).map (cubeCorner x1 x2 y1 y2 z1 z2)).Nodup := by
  refine List.Nodup.map_on ?_ (List.nodup_range 8)
  intro a ha b hb hab
  exact cubeCorner_inj x1 x2 y1 y2 z1 z2 hx hy hz a (List.mem_range.mp ha)
    b (List.mem_range.mp hb) hab

/-- With distinct coordinate pairs, the cube build produces exactly the
eight corners (indices `0..7`) and the six literal quads. -/
theorem cubeMesh_eq (x1 x2 y1 y2 z1 z2 : ℚ) (hx : x1 ≠ x2) (hy : y1 ≠ y2)
    (hz : z1 ≠ z2) :
    cubeMesh x1 x2 y1 y2 z1 z2
      = ⟨(List.range 8).map (cubeCorner x1 x2 y1 y2 z1 z2),
         [[4,5,7,6],[2,3,1,0],[0,1,5,4],[1,3,7,5],[3,2,6,7],[2,0,4,6]]⟩ := by
  have hnd := cubeCorners_nodup x1 x2 y1 y2 z1 z2 hx hy hz
  have ha := addPoints_fresh ((List.range 8).map (cubeCorner x1 x2 y1 y2 z1 z2))
    PSBuilder.empty hnd (by intro p _ h; simp [PSBuilder.empty] at h)
  simp only [cubeMesh]
  rw [ha]
  rfl



/-- A double that is finite and does not compare `≤ 0` is a positive
rational. -/
theorem pos_fin (x : Dbl) (h1 : Dbl.le x (.fin 0) = false) (h2 : x.isFinite = true) :
    ∃ q : ℚ, x = .fin q ∧ 0 < q := by
  cases x with
  | fin q =>
    refine ⟨q, rfl, ?_⟩
    simp [Dbl.le] at h1
    linarith
  | inf => simp [Dbl.isFinite] at h2
  | ninf => simp [Dbl.isFinite] at h2
  | nan => simp [Dbl.isFinite] at h2

/-- Claim C5: for positive finite extents the box mesh has exactly 8
distinct vertices and 6 quadrilateral faces with every edge shared by
exactly 2 faces; if any extent is `≤ 0` or non-finite the mesh is empty
with 0 faces. -/
theorem C5_box_mesh :
    (∀ (x y z : Dbl) (center : Bool),
        Dbl.le x (.fin 0) = false → x.isFinite = true →
        Dbl.le y (.fin 0) = false → y.isFinite = true →
        Dbl.le z (.fin 0) = false → z.isFinite = true →
        (CubeNode.createGeometry x y z center).vertices.length = 8 ∧
        (CubeNode.createGeometry x y z center).vertices.Nodup ∧
        (CubeNode.createGeometry x y z center).indices.length = 6 ∧
        (∀ f ∈ (CubeNode.createGeometry x y z center).indices, f.length = 4) ∧
        closedEdges (CubeNode.createGeometry x y z center).indices) ∧
    (∀ (x y z : Dbl) (center : Bool),
        (Dbl.le x (.fin 0) || !x.isFinite || Dbl.le y (.fin 0) || !y.isFinite
          || Dbl.le z (.fin 0) || !z.isFinite) = true →
        CubeNode.createGeometry x y z center = ⟨[], []⟩) := by
  constructor
  · intro x y z center hx hxf hy hyf hz hzf
    obtain ⟨qx, rfl, hqx⟩ := pos_fin x hx hxf
    obtain ⟨qy, rfl, hqy⟩ := pos_fin y hy hyf
    obtain ⟨qz, rfl, hqz⟩ := pos_fin z hz hzf
    have hmesh : CubeNode.createGeometry (.fin qx) (.fin qy) (.fin qz) center
        = (if center then cubeMesh (-qx / 2) (qx / 2) (-qy / 2) (qy / 2) (-qz / 2) (qz / 2)
           else cubeMesh 0 qx 0 qy 0 qz) := by
      simp [CubeNode.createGeometry, hx, hxf, hy, hyf, hz, hzf, Dbl.toQ]
    rw [hmesh]
    cases center with
    | true =>
      rw [if_pos rfl, cubeMesh_eq _ _ _ _ _ _ (by intro h; linarith)
        (by intro h; linarith) (by intro h; linarith)]
      refine ⟨by simp, ?_, rfl, ?_, ?_⟩
      · exact cubeCorners_nodup _ _ _ _ _ _ (by intro h; linarith)
          (by intro h; linarith) (by intro h; linarith)
      · intro f hf
        simp only [List.mem_cons, List.not_mem_nil, or_false] at hf
        rcases hf with rfl | rfl | rfl | rfl | rfl | rfl <;> rfl
      · show closedEdges [[4,5,7,6],[2,3,1,0],[0,1,5,4],[1,3,7,5],[3,2,6,7],[2,0,4,6]]
        decide
    | false =>
      rw [if_neg (by simp), cubeMesh_eq _ _ _ _ _ _ (by intro h; linarith)
        (by intro h; linarith) (by intro h; linarith)]
      refine ⟨by simp, ?_, rfl, ?_, ?_⟩
      · exact cubeCorners_nodup _ _ _ _ _ _ (by intro h; linarith)
          (by intro h; linarith) (by intro h; linarith)
      · intro f hf
        simp only [List.mem_cons, List.not_mem_nil, or_false] at hf
        rcases hf with rfl | rfl | rfl | rfl | rfl | rfl <;> rfl
      · show closedEdges [[4,5,7,6],[2,3,1,0],[0,1,5,4],[1,3,7,5],[3,2,6,7],[2,0,4,6]]
        decide
  · intro x y z center h
    simp [CubeNode.createGeometry, h]

/-- Witness for C5 at concrete inputs: the unit cube, and a NaN
extent. -/
theorem C5_witness :
    (CubeNode.createGeometry (.fin 1) (.fin 1) (.fin 1) false).vertices.length = 8 ∧
    (CubeNode.createGeometry (.fin 1) (.fin 1) (.fin 1) false).vertices.Nodup ∧
    (CubeNode.createGeometry (.fin 1) (.fin 1) (.fin 1) false).indices.length = 6 ∧
    (∀ f ∈ (CubeNode.createGeometry (.fin 1) (.fin 1) (.fin 1) false).indices,
        f.length = 4) ∧
    closedEdges (CubeNode.createGeometry (.fin 1) (.fin 1) (.fin 1) false).indices ∧
    CubeNode.createGeometry .nan (.fin 1) (.fin 1) true = ⟨[], []⟩ := by
  have h := C5_box_mesh.1 (.fin 1) (.fin 1) (.fin 1) false (by decide) rfl (by decide)
    rfl (by decide) rfl
  exact ⟨h.1, h.2.1, h.2.2.1, h.2.2.2.1, h.2.2.2.2,
    C5_box_mesh.2 .nan (.fin 1) (.fin 1) true (by decide)⟩

/-- `vertexIndex` does not change the completed faces. -/
theorem vertexIndex_done (b : PSBuilder) (p : Point3) :
    (b.vertexIndex p).1.done = b.done := by
  unfold PSBuilder.vertexIndex
  cases findPt p b.verts <;> rfl

/-- `vertexIndex` does not change the pending face. -/
theorem vertexIndex_cur (b : PSBuilder) (p : Point3) :
    (b.vertexIndex p).1.cur = b.cur := by
  unfold PSBuilder.vertexIndex
  cases findPt p b.verts <;> rfl

/-- `vertexIndex` does not change the open-face flag. -/
theorem vertexIndex_building (b : PSBuilder) (p : Point3) :
    (b.vertexIndex p).1.building = b.building := by
  unfold PSBuilder.vertexIndex
  cases findPt p b.verts <;> rfl

/-- The prepend loop does not change the completed faces. -/
theorem prependPts_done (g : ℕ → Point3) :
    ∀ (ks : List ℕ) (b : PSBuilder), (prependPts g ks b).done = b.done := by
  intro ks
  induction ks with
  | nil => intro b; rfl
  | cons k ks ih =>
    intro b
    rw [prependPts, List.foldl_cons]
    rw [show (List.foldl _ _ ks : PSBuilder) = prependPts g ks _ from rfl, ih]
    simp [PSBuilder.prepend_vertex, vertexIndex_done]

/-- The prepend loop does not change the open-face flag. -/
theorem prependPts_building (g : ℕ → Point3) :
    ∀ (ks : List ℕ) (b : PSBuilder), (prependPts g ks b).building = b.building := by
  intro ks
  induction ks with
  | nil => intro b; rfl
  | cons k ks ih =>
    intro b
    rw [prependPts, List.foldl_cons]
    rw [show (List.foldl _ _ ks : PSBuilder) = prependPts g ks _ from rfl, ih]
    simp [PSBuilder.prepend_vertex, vertexIndex_building]

/-- The prepend loop grows the pending face by one index per point. -/
theorem prependPts_cur_length (g : ℕ → Point3) :
    ∀ (ks : List ℕ) (b : PSBuilder),
      (prependPts g ks b).cur.length = b.cur.length + ks.length := by
  intro ks
  induction ks with
  | nil => intro b; simp [prependPts]
  | cons k ks ih =>
    intro b
    rw [prependPts, List.foldl_cons]
    rw [show (List.foldl _ _ ks : PSBuilder) = prependPts g ks _ from rfl, ih]
    simp [PSBuilder.prepend_vertex, vertexIndex_cur]
    omega

/-- The append loop does not change the completed faces. -/
theorem appendPts_done (g : ℕ → Point3) :
    ∀ (ks : List ℕ) (b : PSBuilder), (appendPts g ks b).done = b.done := by
  intro ks
  induction ks with
  | nil => intro b; rfl
  | cons k ks ih =>
    intro b
    rw [appendPts, List.foldl_cons]
    rw [show (List.foldl _ _ ks : PSBuilder) = appendPts g ks _ from rfl, ih]
    simp [PSBuilder.append_vertex, vertexIndex_done]

/-- The append loop does not change the open-face flag. -/
theorem appendPts_building (g : ℕ → Point3) :
    ∀ (ks : List ℕ) (b : PSBuilder), (appendPts g ks b).building = b.building := by
  intro ks
  induction ks with
  | nil => intro b; rfl
  | cons k ks ih =>
    intro b
    rw [appendPts, List.foldl_cons]
    rw [show (List.foldl _ _ ks : PSBuilder) = appendPts g ks _ from rfl, ih]
    simp [PSBuilder.append_vertex, vertexIndex_building]

/-- The append loop grows the pending face by one index per point. -/
theorem appendPts_cur_length (g : ℕ → Point3) :
    ∀ (ks : List ℕ) (b : PSBuilder),
      (appendPts g ks b).cur.length = b.cur.length + ks.length := by
  intro ks
  induction ks with
  | nil => intro b; simp [appendPts]
  | cons k ks ih =>
    intro b
    rw [appendPts, List.foldl_cons]
    rw [show (List.foldl _ _ ks : PSBuilder) = appendPts g ks _ from rfl, ih]
    simp [PSBuilder.append_vertex, vertexIndex_cur]
    omega



/-- A quad iteration with an open 4-index face closes it and opens the
next. -/
theorem cylSideQuad_step (c1 : List Point2) (z1 z2 : ℚ) (i j : ℕ) (b : PSBuilder)
    (hb : b.building = true) :
    (cylSideQuad c1 z1 z2 i j b).done = b.done ++ [b.cur] ∧
    (cylSideQuad c1 z1 z2 i j b).cur.length = 4 ∧
    (cylSideQuad c1 z1 z2 i j b).building = true := by
  unfold cylSideQuad
  rw [prependPts_done, prependPts_building, prependPts_cur_length]
  simp [PSBuilder.append_poly_n, PSBuilder.closeCur, hb]

/-- The first quad iteration (no face open yet) opens the first quad. -/
theorem cylSideQuad_start (c1 : List Point2) (z1 z2 : ℚ) (i j : ℕ) (b : PSBuilder)
    (hb : b.building = false) :
    (cylSideQuad c1 z1 z2 i j b).done = b.done ∧
    (cylSideQuad c1 z1 z2 i j b).cur.length = 4 ∧
    (cylSideQuad c1 z1 z2 i j b).building = true := by
  unfold cylSideQuad
  rw [prependPts_done, prependPts_building, prependPts_cur_length]
  simp [PSBuilder.append_poly_n, PSBuilder.closeCur, hb]

/-- Invariant of the quad side loop: one closed 4-index face per
iteration, with a 4-index face left open. -/
theorem quad_fold_inv (c1 : List Point2) (z1 z2 : ℚ) (F : ℕ) :
    ∀ (l : List ℕ) (b : PSBuilder), b.building = true → b.cur.length = 4 →
      (∀ f ∈ b.done, f.length = 4) →
      ((l.foldl (fun b i => cylSideQuad c1 z1 z2 i ((i + 1) % F) b) b).done.length
          = b.done.length + l.length ∧
        (∀ f ∈ (l.foldl (fun b i => cylSideQuad c1 z1 z2 i ((i + 1) % F) b) b).done,
          f.length = 4) ∧
        (l.foldl (fun b i => cylSideQuad c1 z1 z2 i ((i + 1) % F) b) b).cur.length = 4 ∧
        (l.foldl (fun b i => cylSideQuad c1 z1 z2 i ((i + 1) % F) b) b).building = true) := by
  intro l
  induction l with
  | nil =>
    intro b hb hc hd
    exact ⟨by simp, hd, hc, hb⟩
  | cons k l ih =>
    intro b hb hc hd
    rw [List.foldl_cons]
    obtain ⟨h1, h2, h3⟩ := cylSideQuad_step c1 z1 z2 k ((k + 1) % F) b hb
    have hd2 : ∀ f ∈ (cylSideQuad c1 z1 z2 k ((k + 1) % F) b).done, f.length = 4 := by
      rw [h1]
      intro f hf
      rcases List.mem_append.mp hf with h | h
      · exact hd f h
      · rw [List.mem_singleton.mp h]; exact hc
    obtain ⟨g1, g2, g3, g4⟩ := ih _ h3 h2 hd2
    refine ⟨?_, g2, g3, g4⟩
    rw [g1, h1]
    simp
    omega



/-- `append_poly n` with a face open closes it and opens a new one. -/
theorem append_poly_n_true (b : PSBuilder) (n : ℕ) (hb : b.building = true) :
    b.append_poly_n n
      = { verts := b.verts, done := b.done ++ [b.cur], cur := [], building := true } := by
  simp [PSBuilder.append_poly_n, PSBuilder.closeCur, hb]

/-- `append_poly n` with no face open just opens one. -/
theorem append_poly_n_false (b : PSBuilder) (n : ℕ) (hb : b.building = false) :
    b.append_poly_n n
      = { verts := b.verts, done := b.done, cur := [], building := true } := by
  simp [PSBuilder.append_poly_n, PSBuilder.closeCur, hb]

/-- `result()` with a face open closes it into the mesh. -/
theorem result_of_building (b : PSBuilder) (hb : b.building = true) :
    b.result = ⟨b.verts, b.done ++ [b.cur]⟩ := by
  simp [PSBuilder.result, PSBuilder.closeCur, hb]

/-- `result()` with no face open returns the accumulated mesh. -/
theorem result_of_closed (b : PSBuilder) (hb : b.building = false) :
    b.result = ⟨b.verts, b.done⟩ := by
  simp [PSBuilder.result, PSBuilder.closeCur, hb]

/-- The `r1 == r2 = r > 0` cylinder body: F quad side faces followed by
two F-gon caps. -/
theorem cylinderMesh_quads (sd cd : ℚ → ℚ) (hq r : ℚ) (center : Bool) (F : ℕ)
    (hr : 0 < r) (hF : 1 ≤ F) :
    ∃ qs cap1 cap2,
      (cylinderMesh sd cd hq r r center F).indices = qs ++ [cap1, cap2] ∧
      qs.length = F ∧ (∀ f ∈ qs, f.length = 4) ∧
      cap1.length = F ∧ cap2.length = F := by
  obtain ⟨m, rfl⟩ : ∃ m, F = m + 1 := ⟨F - 1, by omega⟩
  simp only [cylinderMesh, hr, eq_self_iff_true, if_true]
  rw [List.range_eq_range', List.range'_succ, List.foldl_cons]
  set c1 := generate_circle sd cd r (m + 1) with hc1
  set z1 := (if center then -hq / 2 else 0 : ℚ) with hz1
  set z2 := (if center then hq / 2 else hq : ℚ) with hz2
  obtain ⟨s1, s2, s3⟩ := cylSideQuad_start c1 z1 z2 0 ((0 + 1) % (m + 1))
    PSBuilder.empty rfl
  obtain ⟨g1, g2, g3, g4⟩ := quad_fold_inv c1 z1 z2 (m + 1) (List.range' 1 m)
    (cylSideQuad c1 z1 z2 0 ((0 + 1) % (m + 1)) PSBuilder.empty) s3 s2
    (by rw [s1]; intro f hf; simp [PSBuilder.empty] at hf)
  set bL := List.foldl (fun b i => cylSideQuad c1 z1 z2 i ((i + 1) % (m + 1)) b)
    (cylSideQuad c1 z1 z2 0 ((0 + 1) % (m + 1)) PSBuilder.empty) (List.range' 1 m) with hbL
  rw [append_poly_n_true bL (m + 1) g4]
  set b1 := prependPts (fun i => ((c1.getD i (0, 0)).1, (c1.getD i (0, 0)).2, z1))
    (0 :: List.range' (0 + 1) m)
    { verts := bL.verts, done := bL.done ++ [bL.cur], cur := [], building := true }
    with hb1
  have hb1done : b1.done = bL.done ++ [bL.cur] := by rw [hb1, prependPts_done]
  have hb1building : b1.building = true := by rw [hb1, prependPts_building]
  have hb1cur : b1.cur.length = m + 1 := by
    rw [hb1, prependPts_cur_length]
    simp
  rw [append_poly_n_true b1 (m + 1) hb1building]
  set b2 := appendPts (fun i => ((c1.getD i (0, 0)).1, (c1.getD i (0, 0)).2, z2))
    (0 :: List.range' (0 + 1) m)
    { verts := b1.verts, done := b1.done ++ [b1.cur], cur := [], building := true }
    with hb2
  have hb2done : b2.done = b1.done ++ [b1.cur] := by rw [hb2, appendPts_done]
  have hb2building : b2.building = true := by rw [hb2, appendPts_building]
  have hb2cur : b2.cur.length = m + 1 := by
    rw [hb2, appendPts_cur_length]
    simp
  rw [result_of_building b2 hb2building]
  refine ⟨bL.done ++ [bL.cur], b1.cur, b2.cur, ?_, ?_, ?_, hb1cur, hb2cur⟩
  · rw [hb2done, hb1done]
    simp
  · rw [s1] at g1
    simp only [List.length_append, List.length_cons, List.length_nil, g1]
    simp [PSBuilder.empty]
  · intro f hf
    rcases List.mem_append.mp hf with h | h
    · exact g2 f h
    · rw [List.mem_singleton.mp h]; exact g3



/-- The index `findPt` returns holds the searched point. -/
theorem findPt_get (p : Point3) :
    ∀ (l : List Point3) (i : ℕ), findPt p l = some i → l[i]? = some p := by
  intro l
  induction l with
  | nil => intro i h; simp [findPt] at h
  | cons q qs ih =>
    intro i h
    by_cases hq : q = p
    · subst hq
      simp [findPt] at h
      subst h
      simp
    · simp [findPt, hq] at h
      obtain ⟨j, hj, rfl⟩ := h
      simpa using ih j hj

/-- Invariant of the cone build: at least two vertices, vertex 1 is the
apex `(0, 0, z2)`, and every other vertex lies at height `z1`. -/
def coneInv (z1 z2 : ℚ) (vs : List Point3) : Prop :=
  2 ≤ vs.length ∧ vs[1]? = some (0, 0, z2) ∧
    ∀ i p, vs[i]? = some p → i ≠ 1 → p.2.2 = z1

/-- Adding a height-`z1` point to a cone-invariant builder preserves the
invariant and never returns the apex index 1. -/
theorem vertexIndex_z1 (z1 z2 : ℚ) (hz : z1 ≠ z2) (b : PSBuilder)
    (hinv : coneInv z1 z2 b.verts) (p : Point3) (hp : p.2.2 = z1) :
    coneInv z1 z2 (b.vertexIndex p).1.verts ∧ (b.vertexIndex p).2 ≠ 1 := by
  obtain ⟨hlen, hapex, hothers⟩ := hinv
  unfold PSBuilder.vertexIndex
  cases hfind : findPt p b.verts with
  | some i =>
    refine ⟨⟨hlen, hapex, hothers⟩, ?_⟩
    intro h1
    subst h1
    have := findPt_get p b.verts 1 hfind
    rw [hapex] at this
    have hpeq : p = (0, 0, z2) := by injection this with h; exact h.symm
    rw [hpeq] at hp
    exact hz hp.symm
  | none =>
    refine ⟨⟨?_, ?_, ?_⟩, ?_⟩
    · simp
      omega
    · rw [List.getElem?_append_left (by omega)]
      exact hapex
    · intro i q hq hi
      by_cases hil : i < b.verts.length
      · rw [List.getElem?_append_left hil] at hq
        exact hothers i q hq hi
      · have : i = b.verts.length := by
          by_contra hne
          rw [List.getElem?_eq_none_iff.mpr (by simp; omega)] at hq
          exact Option.noConfusion hq
        subst this
        rw [List.getElem?_append_right (by omega)] at hq
        simp at hq
        rw [← hq]
        exact hp
    · simp
      omega

/-- Looking up the apex in a cone-invariant builder returns index 1 and
changes nothing. -/
theorem vertexIndex_apex (z1 z2 : ℚ) (hz : z1 ≠ z2) (b : PSBuilder)
    (hinv : coneInv z1 z2 b.verts) :
    b.vertexIndex (0, 0, z2) = (b, 1) := by
  obtain ⟨hlen, hapex, hothers⟩ := hinv
  have hfind : findPt (0, 0, z2) b.verts = some 1 := by
    obtain ⟨v0, rest, hv⟩ : ∃ v0 rest, b.verts = v0 :: rest := by
      cases hb : b.verts with
      | nil => rw [hb] at hlen; simp at hlen
      | cons v0 rest => exact ⟨v0, rest, rfl⟩
    obtain ⟨v1, rest2, hv2⟩ : ∃ v1 rest2, rest = v1 :: rest2 := by
      cases hb : rest with
      | nil => rw [hv, hb] at hlen; simp at hlen
      | cons v1 rest2 => exact ⟨v1, rest2, rfl⟩
    subst hv2
    have hv1 : v1 = (0, 0, z2) := by
      rw [hv] at hapex
      simpa using hapex
    have hv0 : v0 ≠ (0, 0, z2) := by
      intro h0
      have := hothers 0 v0 (by rw [hv]; rfl) (by omega)
      rw [h0] at this
      exact hz this.symm
    rw [hv, hv1]
    simp [findPt, hv0]
  rw [PSBuilder.vertexIndex, hfind]

/-- All points of a zero-radius generated circle are the origin — the
degenerate top circle of a cone collapses to one apex point. -/
theorem generate_circle_zero (sd cd : ℚ → ℚ) (F : ℕ) :
    ∀ i, (generate_circle sd cd 0 F).getD i (0, 0) = (0, 0) := by
  intro i
  by_cases hi : i < F
  · rw [generate_circle, getD_map_range _ _ _ _ hi]
    simp
  · rw [List.getD_eq_getElem?_getD, List.getElem?_eq_none]
    · rfl
    · simp [generate_circle]
      omega



/-- `append_poly` of a complete face with no face open appends it. -/
theorem append_poly_closed (b : PSBuilder) (f : List ℕ) (hb : b.building = false) :
    b.append_poly f
      = { verts := b.verts, done := b.done ++ [f], cur := b.cur, building := false } := by
  simp [PSBuilder.append_poly, PSBuilder.closeCur, hb]

/-- `vertexIndex` either finds the point (index in range, vertices
unchanged) or appends it. -/
theorem vertexIndex_verts_fst (b : PSBuilder) (p : Point3) :
    ((b.vertexIndex p).1.verts = b.verts ∧ (b.vertexIndex p).2 < b.verts.length) ∨
      (b.vertexIndex p).1.verts = b.verts ++ [p] := by
  unfold PSBuilder.vertexIndex
  cases h : findPt p b.verts with
  | some i =>
    left
    refine ⟨rfl, ?_⟩
    have := findPt_get p b.verts i h
    simp only []
    exact (List.getElem?_eq_some_iff.mp this).1
  | none => right; rfl

/-- One cone side iteration on a cone-invariant closed builder appends
one triangle whose middle entry — and only that entry — is the apex
index 1. -/
theorem cone_step (c1 c2 : List Point2) (z1 z2 r : ℚ) (hz : z1 ≠ z2) (hr : 0 < r)
    (hc2 : ∀ k, c2.getD k (0, 0) = (0, 0)) (i j : ℕ) (b : PSBuilder)
    (hb : b.building = false) (hinv : coneInv z1 z2 b.verts) :
    ∃ a c, a ≠ 1 ∧ c ≠ 1 ∧
      (cylSideTris c1 c2 z1 z2 r 0 i j b).done = b.done ++ [[a, 1, c]] ∧
      (cylSideTris c1 c2 z1 z2 r 0 i j b).cur = b.cur ∧
      (cylSideTris c1 c2 z1 z2 r 0 i j b).building = false ∧
      coneInv z1 z2 (cylSideTris c1 c2 z1 z2 r 0 i j b).verts := by
  have h1 := vertexIndex_z1 z1 z2 hz b hinv
    ((c1.getD j (0, 0)).1, (c1.getD j (0, 0)).2, z1) rfl
  have hpt : (((c2.getD i (0, 0)).1 : ℚ), ((c2.getD i (0, 0)).2 : ℚ), z2)
      = ((0 : ℚ), (0 : ℚ), z2) := by rw [hc2 i]
  have happ := vertexIndex_apex z1 z2 hz
    (b.vertexIndex ((c1.getD j (0, 0)).1, (c1.getD j (0, 0)).2, z1)).1 h1.1
  have h3 := vertexIndex_z1 z1 z2 hz
    (b.vertexIndex ((c1.getD j (0, 0)).1, (c1.getD j (0, 0)).2, z1)).1 h1.1
    ((c1.getD i (0, 0)).1, (c1.getD i (0, 0)).2, z1) rfl
  have hexp : cylSideTris c1 c2 z1 z2 r 0 i j b
      = ((b.vertexIndex ((c1.getD j (0, 0)).1, (c1.getD j (0, 0)).2, z1)).1.vertexIndex
          ((c1.getD i (0, 0)).1, (c1.getD i (0, 0)).2, z1)).1.append_poly
          [(b.vertexIndex ((c1.getD j (0, 0)).1, (c1.getD j (0, 0)).2, z1)).2, 1,
           ((b.vertexIndex ((c1.getD j (0, 0)).1, (c1.getD j (0, 0)).2, z1)).1.vertexIndex
            ((c1.getD i (0, 0)).1, (c1.getD i (0, 0)).2, z1)).2] := by
    unfold cylSideTris
    rw [hpt]
    simp only [hr, lt_irrefl, if_true, if_false, ite_true, ite_false]
    rw [happ]
  rw [hexp]
  have hbuild3 : ((b.vertexIndex ((c1.getD j (0, 0)).1, (c1.getD j (0, 0)).2, z1)).1.vertexIndex
      ((c1.getD i (0, 0)).1, (c1.getD i (0, 0)).2, z1)).1.building = false := by
    rw [vertexIndex_building, vertexIndex_building, hb]
  rw [append_poly_closed _ _ hbuild3]
  refine ⟨(b.vertexIndex ((c1.getD j (0, 0)).1, (c1.getD j (0, 0)).2, z1)).2,
    ((b.vertexIndex ((c1.getD j (0, 0)).1, (c1.getD j (0, 0)).2, z1)).1.vertexIndex
      ((c1.getD i (0, 0)).1, (c1.getD i (0, 0)).2, z1)).2,
    h1.2, h3.2, ?_, ?_, rfl, ?_⟩
  · simp [vertexIndex_done]
  · simp [vertexIndex_cur]
  · exact h3.1



/-- The first cone side iteration from the empty builder: the apex is
inserted as vertex 1 and the first triangle holds it exactly at its
middle entry. -/
theorem cone_base (c1 c2 : List Point2) (z1 z2 r : ℚ) (hz : z1 ≠ z2) (hr : 0 < r)
    (hc2 : ∀ k, c2.getD k (0, 0) = (0, 0)) (i j : ℕ) :
    ∃ a c, a ≠ 1 ∧ c ≠ 1 ∧
      (cylSideTris c1 c2 z1 z2 r 0 i j PSBuilder.empty).done = [[a, 1, c]] ∧
      (cylSideTris c1 c2 z1 z2 r 0 i j PSBuilder.empty).cur = [] ∧
      (cylSideTris c1 c2 z1 z2 r 0 i j PSBuilder.empty).building = false ∧
      coneInv z1 z2 (cylSideTris c1 c2 z1 z2 r 0 i j PSBuilder.empty).verts := by
  have hne : (((c1.getD j (0, 0)).1 : ℚ), ((c1.getD j (0, 0)).2 : ℚ), z1)
      = ((0 : ℚ), (0 : ℚ), z2) → False := by
    intro h
    exact hz (congrArg (fun p : Point3 => p.2.2) h)
  have h1 : PSBuilder.empty.vertexIndex
      ((c1.getD j (0, 0)).1, (c1.getD j (0, 0)).2, z1)
      = (⟨[((c1.getD j (0, 0)).1, (c1.getD j (0, 0)).2, z1)], [], [], false⟩, 0) := by
    rfl
  have h2 : (⟨[((c1.getD j (0, 0)).1, (c1.getD j (0, 0)).2, z1)], [], [], false⟩
        : PSBuilder).vertexIndex ((0 : ℚ), (0 : ℚ), z2)
      = (⟨[((c1.getD j (0, 0)).1, (c1.getD j (0, 0)).2, z1),
           ((0 : ℚ), (0 : ℚ), z2)], [], [], false⟩, 1) := by
    rw [PSBuilder.vertexIndex]
    have hfind : findPt ((0 : ℚ), (0 : ℚ), z2)
        [((c1.getD j (0, 0)).1, (c1.getD j (0, 0)).2, z1)] = none := by
      rw [findPt, if_neg (fun h => hne h), findPt]
      rfl
    rw [hfind]
    rfl
  have hinv2 : coneInv z1 z2
      ([((c1.getD j (0, 0)).1, (c1.getD j (0, 0)).2, z1), ((0 : ℚ), (0 : ℚ), z2)]
        : List Point3) := by
    refine ⟨by simp, rfl, ?_⟩
    intro k p hp hk
    match k with
    | 0 =>
      simp at hp
      rw [← hp]
    | 1 => exact absurd rfl hk
    | n + 2 => simp at hp
  have h3 := vertexIndex_z1 z1 z2 hz
    ⟨[((c1.getD j (0, 0)).1, (c1.getD j (0, 0)).2, z1), ((0 : ℚ), (0 : ℚ), z2)], [], [], false⟩
    hinv2 ((c1.getD i (0, 0)).1, (c1.getD i (0, 0)).2, z1) rfl
  have hexp : cylSideTris c1 c2 z1 z2 r 0 i j PSBuilder.empty
      = ((⟨[((c1.getD j (0, 0)).1, (c1.getD j (0, 0)).2, z1), ((0 : ℚ), (0 : ℚ), z2)],
            [], [], false⟩ : PSBuilder).vertexIndex
          ((c1.getD i (0, 0)).1, (c1.getD i (0, 0)).2, z1)).1.append_poly
          [0, 1, ((⟨[((c1.getD j (0, 0)).1, (c1.getD j (0, 0)).2, z1),
              ((0 : ℚ), (0 : ℚ), z2)], [], [], false⟩ : PSBuilder).vertexIndex
            ((c1.getD i (0, 0)).1, (c1.getD i (0, 0)).2, z1)).2] := by
    unfold cylSideTris
    rw [show (((c2.getD i (0, 0)).1 : ℚ), ((c2.getD i (0, 0)).2 : ℚ), z2)
        = ((0 : ℚ), (0 : ℚ), z2) from by rw [hc2 i]]
    simp only [hr, lt_irrefl, if_true, if_false, ite_true, ite_false]
    rw [h1]
    dsimp only
    rw [h2]
  have hb3 : ((⟨[((c1.getD j (0, 0)).1, (c1.getD j (0, 0)).2, z1),
      ((0 : ℚ), (0 : ℚ), z2)], [], [], false⟩ : PSBuilder).vertexIndex
      ((c1.getD i (0, 0)).1, (c1.getD i (0, 0)).2, z1)).1.building = false := by
    rw [vertexIndex_building]
  rw [hexp, append_poly_closed _ _ hb3]
  refine ⟨0, _, by omega, h3.2, ?_, ?_, rfl, h3.1⟩
  · simp [vertexIndex_done]
  · simp [vertexIndex_cur]



/-- Invariant of the cone side loop: one apex triangle per iteration,
builder closed, cone invariant maintained. -/
theorem cone_fold (c1 c2 : List Point2) (z1 z2 r : ℚ) (hz : z1 ≠ z2) (hr : 0 < r)
    (hc2 : ∀ k, c2.getD k (0, 0) = (0, 0)) (F : ℕ) :
    ∀ (l : List ℕ) (b : PSBuilder), b.building = false → coneInv z1 z2 b.verts →
      (∀ f ∈ b.done, ∃ a c, f = [a, 1, c] ∧ a ≠ 1 ∧ c ≠ 1) →
      ((l.foldl (fun b i => cylSideTris c1 c2 z1 z2 r 0 i ((i + 1) % F) b) b).done.length
          = b.done.length + l.length ∧
        (∀ f ∈ (l.foldl (fun b i => cylSideTris c1 c2 z1 z2 r 0 i ((i + 1) % F) b) b).done,
          ∃ a c, f = [a, 1, c] ∧ a ≠ 1 ∧ c ≠ 1) ∧
        (l.foldl (fun b i => cylSideTris c1 c2 z1 z2 r 0 i ((i + 1) % F) b) b).cur = b.cur ∧
        (l.foldl (fun b i => cylSideTris c1 c2 z1 z2 r 0 i ((i + 1) % F) b) b).building = false ∧
        coneInv z1 z2
          (l.foldl (fun b i => cylSideTris c1 c2 z1 z2 r 0 i ((i + 1) % F) b) b).verts) := by
  intro l
  induction l with
  | nil =>
    intro b hb hinv hd
    exact ⟨by simp, hd, rfl, hb, hinv⟩
  | cons k l ih =>
    intro b hb hinv hd
    rw [List.foldl_cons]
    obtain ⟨a, c, ha, hc, hdone, hcur, hbuild, hinv2⟩ :=
      cone_step c1 c2 z1 z2 r hz hr hc2 k ((k + 1) % F) b hb hinv
    have hd2 : ∀ f ∈ (cylSideTris c1 c2 z1 z2 r 0 k ((k + 1) % F) b).done,
        ∃ a c, f = [a, 1, c] ∧ a ≠ 1 ∧ c ≠ 1 := by
      rw [hdone]
      intro f hf
      rcases List.mem_append.mp hf with h | h
      · exact hd f h
      · exact ⟨a, c, List.mem_singleton.mp h, ha, hc⟩
    obtain ⟨g1, g2, g3, g4, g5⟩ := ih _ hbuild hinv2 hd2
    refine ⟨?_, g2, by rw [g3, hcur], g4, g5⟩
    rw [g1, hdone]
    simp
    omega

/-- The cone bottom-cap loop prepends only height-`z1` points, so no cap
index is the apex index 1, and the cone invariant is preserved. -/
theorem prependPts_cone (z1 z2 : ℚ) (hz : z1 ≠ z2) (g : ℕ → Point3)
    (hg : ∀ k, (g k).2.2 = z1) :
    ∀ (ks : List ℕ) (b : PSBuilder), coneInv z1 z2 b.verts →
      coneInv z1 z2 (prependPts g ks b).verts ∧
      (∀ e ∈ (prependPts g ks b).cur, e ∈ b.cur ∨ e ≠ 1) := by
  intro ks
  induction ks with
  | nil =>
    intro b hinv
    exact ⟨hinv, fun e he => Or.inl he⟩
  | cons k ks ih =>
    intro b hinv
    rw [prependPts, List.foldl_cons]
    rw [show (List.foldl _ _ ks : PSBuilder) = prependPts g ks _ from rfl]
    have hk := vertexIndex_z1 z1 z2 hz b hinv (g k) (hg k)
    have hstep : coneInv z1 z2 ((b.vertexIndex (g k)).1.prepend_vertex
        (b.vertexIndex (g k)).2).verts := hk.1
    obtain ⟨hi1, hi2⟩ := ih _ hstep
    refine ⟨hi1, ?_⟩
    intro e he
    rcases hi2 e he with h | h
    · simp [PSBuilder.prepend_vertex] at h
      rcases h with rfl | h
      · exact Or.inr hk.2
      · rw [vertexIndex_cur] at h
        exact Or.inl h
    · exact Or.inr h



/-- The `r1 = r > 0, r2 = 0` cone body: F apex triangles followed by one
F-gon bottom cap that avoids the apex, with vertex 1 the apex point. -/
theorem cylinderMesh_cone (sd cd : ℚ → ℚ) (hq r : ℚ) (center : Bool) (F : ℕ)
    (hh : 0 < hq) (hr : 0 < r) (hF : 1 ≤ F) :
    ∃ tris cap,
      (cylinderMesh sd cd hq r 0 center F).indices = tris ++ [cap] ∧
      tris.length = F ∧
      (∀ f ∈ tris, ∃ a c, f = [a, 1, c] ∧ a ≠ 1 ∧ c ≠ 1) ∧
      cap.length = F ∧ (∀ e ∈ cap, e ≠ 1) ∧
      (cylinderMesh sd cd hq r 0 center F).vertices[1]?
        = some (0, 0, if center then hq / 2 else hq) := by
  obtain ⟨m, rfl⟩ : ∃ m, F = m + 1 := ⟨F - 1, by omega⟩
  have hz : (if center then -hq / 2 else 0 : ℚ) ≠ (if center then hq / 2 else hq) := by
    cases center with
    | true => simp; intro h; linarith
    | false => simp; intro h; linarith
  simp only [cylinderMesh, hr, hr.ne', lt_irrefl, if_true, if_false, ite_true,
    ite_false, eq_self_iff_true]
  rw [List.range_eq_range', List.range'_succ, List.foldl_cons]
  set c1 := generate_circle sd cd r (m + 1) with hc1def
  set c2 := generate_circle sd cd 0 (m + 1) with hc2def
  set z1 := (if center = true then -hq / 2 else 0 : ℚ) with hz1def
  set z2 := (if center = true then hq / 2 else hq : ℚ) with hz2def
  have hc2 : ∀ k, c2.getD k (0, 0) = (0, 0) := generate_circle_zero sd cd (m + 1)
  obtain ⟨a, c, ha, hc, bdone, bcur, bbuild, binv⟩ :=
    cone_base c1 c2 z1 z2 r hz hr hc2 0 ((0 + 1) % (m + 1))
  obtain ⟨g1, g2, g3, g4, g5⟩ := cone_fold c1 c2 z1 z2 r hz hr hc2 (m + 1)
    (List.range' 1 m) (cylSideTris c1 c2 z1 z2 r 0 0 ((0 + 1) % (m + 1)) PSBuilder.empty)
    bbuild binv
    (by
      rw [bdone]
      intro f hf
      exact ⟨a, c, List.mem_singleton.mp hf, ha, hc⟩)
  set bL := List.foldl (fun b i => cylSideTris c1 c2 z1 z2 r 0 i ((i + 1) % (m + 1)) b)
    (cylSideTris c1 c2 z1 z2 r 0 0 ((0 + 1) % (m + 1)) PSBuilder.empty)
    (List.range' 1 m) with hbL
  rw [append_poly_n_false bL (m + 1) g4]
  set bcap : PSBuilder :=
    { verts := bL.verts, done := bL.done, cur := [], building := true } with hbcap
  have hcapinv : coneInv z1 z2 bcap.verts := g5
  obtain ⟨f1, f2⟩ := prependPts_cone z1 z2 hz
    (fun i => ((c1.getD i (0, 0)).1, (c1.getD i (0, 0)).2, z1)) (fun k => rfl)
    (0 :: List.range' (0 + 1) m) bcap hcapinv
  have hfb : (prependPts (fun i => ((c1.getD i (0, 0)).1, (c1.getD i (0, 0)).2, z1))
      (0 :: List.range' (0 + 1) m) bcap).building = true := by
    rw [prependPts_building]
  rw [result_of_building _ hfb]
  refine ⟨bL.done,
    (prependPts (fun i => ((c1.getD i (0, 0)).1, (c1.getD i (0, 0)).2, z1))
      (0 :: List.range' (0 + 1) m) bcap).cur, ?_, ?_, g2, ?_, ?_, ?_⟩
  · rw [prependPts_done]
  · rw [g1, bdone]
    simp
    omega
  · rw [prependPts_cur_length]
    simp [hbcap]
  · intro e he
    rcases f2 e he with h | h
    · simp [hbcap] at h
    · exact h
  · exact f1.2.1



/-- The cylinder degenerate guard passes for `h > 0`, non-negative radii
not both zero. -/
theorem cyl_guard (sd cd : ℚ → ℚ) (hq r1v r2v : ℚ) (center : Bool) (F : ℕ)
    (hh : 0 < hq) (h1 : 0 ≤ r1v) (h2 : 0 ≤ r2v) (hpos : 0 < r1v ∨ 0 < r2v) :
    CylinderNode.createGeometry sd cd (.fin hq) (.fin r1v) (.fin r2v) center F
      = cylinderMesh sd cd hq r1v r2v center F := by
  unfold CylinderNode.createGeometry
  have c1 : Dbl.le (.fin hq) (.fin 0) = false := by
    simp [Dbl.le]
    linarith
  have c2 : Dbl.lt (.fin r1v) (.fin 0) = false := by
    simp [Dbl.lt]
    linarith
  have c3 : Dbl.lt (.fin r2v) (.fin 0) = false := by
    simp [Dbl.lt]
    linarith
  have c4 : (Dbl.le (.fin r1v) (.fin 0) && Dbl.le (.fin r2v) (.fin 0)) = false := by
    rcases hpos with h | h
    · have : Dbl.le (.fin r1v) (.fin 0) = false := by
        simp [Dbl.le]
        linarith
      rw [this, Bool.false_and]
    · have : Dbl.le (.fin r2v) (.fin 0) = false := by
        simp [Dbl.le]
        linarith
      rw [this, Bool.and_false]
  simp [c1, c2, c3, c4, Dbl.isFinite, Dbl.toQ]

/-- Claim C6: for h > 0 and fragment count F, a cylinder with
`r1 = r2 = r > 0` has exactly F quad side faces followed by two F-gon end
caps; a cone with `r1 = r > 0, r2 = 0` has exactly F triangular side
faces and one F-gon cap only (no cap for the zero radius): each triangle
touches the apex — vertex 1, the single point `(0,0,z2)` — at exactly its
middle entry, and the cap does not touch the apex. -/
theorem C6_cylinder_faces :
    (∀ (sd cd : ℚ → ℚ) (hq r : ℚ) (center : Bool) (F : ℕ),
        0 < hq → 0 < r → 1 ≤ F →
        ∃ qs cap1 cap2,
          (CylinderNode.createGeometry sd cd (.fin hq) (.fin r) (.fin r) center F).indices
            = qs ++ [cap1, cap2] ∧
          qs.length = F ∧ (∀ f ∈ qs, f.length = 4) ∧
          cap1.length = F ∧ cap2.length = F) ∧
    (∀ (sd cd : ℚ → ℚ) (hq r : ℚ) (center : Bool) (F : ℕ),
        0 < hq → 0 < r → 1 ≤ F →
        ∃ tris cap,
          (CylinderNode.createGeometry sd cd (.fin hq) (.fin r) (.fin 0) center F).indices
            = tris ++ [cap] ∧
          tris.length = F ∧
          (∀ f ∈ tris, ∃ a c, f = [a, 1, c] ∧ a ≠ 1 ∧ c ≠ 1) ∧
          cap.length = F ∧ (∀ e ∈ cap, e ≠ 1) ∧
          (CylinderNode.createGeometry sd cd (.fin hq) (.fin r) (.fin 0) center F).vertices[1]?
            = some (0, 0, if center then hq / 2 else hq)) := by
  constructor
  · intro sd cd hq r center F hh hr hF
    rw [cyl_guard sd cd hq r r center F hh hr.le hr.le (Or.inl hr)]
    exact cylinderMesh_quads sd cd hq r center F hr hF
  · intro sd cd hq r center F hh hr hF
    rw [cyl_guard sd cd hq r 0 center F hh hr.le (le_refl 0) (Or.inl hr)]
    exact cylinderMesh_cone sd cd hq r center F hh hr hF

/-- Witness for C6 at concrete inputs (`h = 1`, `r = 1`, `F = 3`,
constant-zero trig helpers): the cylinder and cone face structures. -/
theorem C6_witness :
    (∃ qs cap1 cap2,
      (CylinderNode.createGeometry (fun _ => 0) (fun _ => 0)
          (.fin 1) (.fin 1) (.fin 1) false 3).indices = qs ++ [cap1, cap2] ∧
      qs.length = 3 ∧ (∀ f ∈ qs, f.length = 4) ∧
      cap1.length = 3 ∧ cap2.length = 3) ∧
    (∃ tris cap,
      (CylinderNode.createGeometry (fun _ => 0) (fun _ => 0)
          (.fin 1) (.fin 1) (.fin 0) false 3).indices = tris ++ [cap] ∧
      tris.length = 3 ∧
      (∀ f ∈ tris, ∃ a c, f = [a, 1, c] ∧ a ≠ 1 ∧ c ≠ 1) ∧
      cap.length = 3 ∧ (∀ e ∈ cap, e ≠ 1) ∧
      (CylinderNode.createGeometry (fun _ => 0) (fun _ => 0)
          (.fin 1) (.fin 1) (.fin 0) false 3).vertices[1]?
        = some (0, 0, if false then 1 / 2 else 1)) := by
  exact ⟨C6_cylinder_faces.1 (fun _ => 0) (fun _ => 0) 1 1 false 3 one_pos one_pos
      (by omega),
    C6_cylinder_faces.2 (fun _ => 0) (fun _ => 0) 1 1 false 3 one_pos one_pos
      (by omega)⟩

end OSCAD
